import Mathlib

/-
Verification of the music-metadata-manager core against its specification.
The Python sources (update_music_metadata.py, extract_music_metadata.py,
convert_video_to_mp3.py) are shallowly embedded: strings are lists of
characters, dictionaries are association lists with insert-in-place
semantics, the filesystem is an association list from paths to file data,
and printing is modelled as an accumulated message list.
-/

/-- Strings are modelled as lists of characters (Python `str`). -/
abbrev PyStr := List Char

/-- Conversion from Lean string literals to the model. -/
def str (s : String) : PyStr := s.data

/-- Python whitespace characters (`str.strip`, `\s`, `str.split`), ASCII subset. -/
def isPySpace (c : Char) : Bool :=
  c = ' ' || c = '\t' || c = '\n' || c = '\r' || c = '\x0b' || c = '\x0c'

/-- ASCII lower-casing of a character (model of Python `str.lower`). -/
def pyToLower (c : Char) : Char :=
  if 'A' ≤ c && c ≤ 'Z' then Char.ofNat (c.toNat + 32) else c

/-- ASCII upper-casing of a character (model of Python `str.upper`). -/
def pyToUpper (c : Char) : Char :=
  if 'a' ≤ c && c ≤ 'z' then Char.ofNat (c.toNat - 32) else c

/-- Model of Python `str.lower`. -/
def pyLower (s : PyStr) : PyStr := s.map pyToLower

/-- Model of Python `str.strip` (leading and trailing whitespace removed). -/
def pyStrip (s : PyStr) : PyStr :=
  ((s.dropWhile isPySpace).reverse.dropWhile isPySpace).reverse

/-- Model of Python `str.isdigit` restricted to ASCII digits. -/
def pyIsDigit (s : PyStr) : Bool := !s.isEmpty && s.all Char.isDigit

/-- Model of Python `str.zfill` as used on digit-only strings. -/
def pyZfill (width : Nat) (s : PyStr) : PyStr :=
  if width ≤ s.length then s else List.replicate (width - s.length) '0' ++ s

/-- Digit accumulator for `pyInt?`, allowing single underscores between digits
as Python `int` does. -/
def pyDigitsAux : PyStr → Nat → Option Nat
  | [], acc => some acc
  | '_' :: c :: rest, acc =>
      if c.isDigit then pyDigitsAux rest (acc * 10 + (c.toNat - 48)) else none
  | ['_'], _ => none
  | c :: rest, acc =>
      if c.isDigit then pyDigitsAux rest (acc * 10 + (c.toNat - 48)) else none

/-- Parse a digit string (first char must be a digit). -/
def pyDigitsVal : PyStr → Option Nat
  | [] => none
  | c :: rest => if c.isDigit then pyDigitsAux rest (c.toNat - 48) else none

/-- Model of Python `int(s)`: optional surrounding whitespace, optional sign,
digits with optional single underscores in between; `none` when `int` raises
`ValueError`. -/
def pyInt? (s : PyStr) : Option Int :=
  match pyStrip s with
  | '+' :: rest => (pyDigitsVal rest).map Int.ofNat
  | '-' :: rest => (pyDigitsVal rest).map (fun n => -(Int.ofNat n))
  | t => (pyDigitsVal t).map Int.ofNat

/-- Association-list lookup (first matching key). -/
def alookup {α β : Type} [DecidableEq α] : List (α × β) → α → Option β
  | [], _ => none
  | (k, v) :: rest, key => if k = key then some v else alookup rest key

/-- Python dict assignment: update the value in place when the key exists,
otherwise append at the end (insertion order preserved, as in CPython). -/
def dictInsert {α β : Type} [DecidableEq α] : List (α × β) → α → β → List (α × β)
  | [], k, v => [(k, v)]
  | (k', v') :: rest, k, v =>
      if k' = k then (k, v) :: rest else (k', v') :: dictInsert rest k v

/-- Python `key in dict`. -/
def dictContains {α β : Type} [DecidableEq α] (d : List (α × β)) (k : α) : Bool :=
  (alookup d k).isSome

/-- Model of Python `str.endswith`. -/
def pyEndsWith (s suffix : PyStr) : Bool := suffix.isSuffixOf s

/-- Part of the model of `os.path.splitext`: split at the last dot if any,
returning the relevant pieces; `none` when there is no dot at all. -/
def splitExtCore : PyStr → Option (PyStr × PyStr)
  | [] => none
  | c :: cs =>
      match splitExtCore cs with
      | some (b, e) => some (c :: b, e)
      | none => if c = '.' then some ([], '.' :: cs) else none

/-- Model of `os.path.splitext` on a bare file name: split at the last dot,
except when every character before that dot is itself a dot (e.g. ".bashrc"),
in which case there is no extension. -/
def splitExt (p : PyStr) : PyStr × PyStr :=
  match splitExtCore p with
  | none => (p, [])
  | some (b, e) => if b.all (· = '.') then (p, []) else (b, e)

/-- Model of `os.path.basename` (the part after the last slash). -/
def baseName (p : PyStr) : PyStr :=
  ((p.reverse.takeWhile (· ≠ '/')).reverse)

/-- Model of `os.path.dirname` (the part before the last slash, "" if none). -/
def dirName (p : PyStr) : PyStr :=
  if p.any (· = '/') then ((p.reverse.dropWhile (· ≠ '/')).drop 1).reverse
  else []

/-- Model of `os.path.join(d, f)` as used in the sources. -/
def joinPath (d f : PyStr) : PyStr := if d.isEmpty then f else d ++ '/' :: f

/-- Characters in the regex class `[\s\-\._]`. -/
def sepChar (c : Char) : Bool := isPySpace c || c = '-' || c = '_' || c = '.'

/-- Characters in the regex class `[\-\._]` (no whitespace). -/
def sepDot (c : Char) : Bool := c = '-' || c = '_' || c = '.'

/-- Whether the first character of a string exists and satisfies `p`. -/
def headIs (p : Char → Bool) : PyStr → Bool
  | [] => false
  | c :: _ => p c

/-- Match of `re.match(r'^\d+[\s\-\._]', base)` as a Boolean (used by the
rename engine, update_music_metadata.py line 195): one or more digits followed
by a separator character. -/
def matchNumSep (s : PyStr) : Bool :=
  !(s.takeWhile Char.isDigit).isEmpty && headIs sepChar (s.dropWhile Char.isDigit)

/-- Drop a literal from the front of a string, or fail. -/
def dropLit : PyStr → PyStr → Option PyStr
  | [], s => some s
  | _ :: _, [] => none
  | l :: ls, c :: cs => if c = l then dropLit ls cs else none

/-- Match of `re.match(r'^Track\s+\d+', base)` as a Boolean
(update_music_metadata.py line 195). -/
def matchTrackNum (s : PyStr) : Bool :=
  match dropLit (str "Track") s with
  | none => false
  | some rest =>
      !(rest.takeWhile isPySpace).isEmpty && headIs Char.isDigit (rest.dropWhile isPySpace)

/-- Match of `re.match(r'^\d+\-\d+[\s\-\._]', base)` as a Boolean
(update_music_metadata.py line 196): digits, a dash, digits, a separator. -/
def matchDiscTrack (s : PyStr) : Bool :=
  let rest := s.dropWhile Char.isDigit
  !(s.takeWhile Char.isDigit).isEmpty && headIs (· = '-') rest &&
    !((rest.drop 1).takeWhile Char.isDigit).isEmpty &&
    headIs sepChar ((rest.drop 1).dropWhile Char.isDigit)

/-- Python truthiness of an optional string (`if disc_number:`). -/
def truthy : Option PyStr → Bool
  | none => false
  | some s => !s.isEmpty

/-- The already-numbered test of the rename engine
(update_music_metadata.py lines 194-199): with a truthy disc number the base
must match the disc-track pattern, otherwise the plain track patterns. -/
def alreadyNumbered (fileBase : PyStr) (disc : Option PyStr) : Bool :=
  let has_track_pattern := matchNumSep fileBase || matchTrackNum fileBase
  let has_disc_track_pattern := matchDiscTrack fileBase
  (truthy disc && has_disc_track_pattern) || (!truthy disc && has_track_pattern)

/-- The formatted track number (update_music_metadata.py lines 203-208):
zero-filled to two digits exactly when the track string is purely numeric. -/
def formattedTrack (track : PyStr) : PyStr :=
  if pyIsDigit track then pyZfill 2 track else track

/-- The name-level rename decision (update_music_metadata.py lines 189-218):
`none` when the file base name is already numbered, otherwise the new file
name "{prefix} {file_base}{extension}". -/
def renameNewName (filename track : PyStr) (disc : Option PyStr) : Option PyStr :=
  let extension := (splitExt filename).2
  let file_base := (splitExt filename).1
  if alreadyNumbered file_base disc then none
  else
    let formatted_track := formattedTrack track
    let pfx :=
      if truthy disc then (disc.getD []) ++ '-' :: formatted_track
      else formatted_track
    some (pfx ++ ' ' :: file_base ++ extension)

/-- The resulting file name of one (non-dry) rename call: unchanged when
already numbered, else the new name. -/
def renameResult (filename track : PyStr) (disc : Option PyStr) : PyStr :=
  match renameNewName filename track disc with
  | none => filename
  | some nf => nf

/-- Modelled from the spec (and the wording of C5): the disc-track prefix is
"{disc_number}-{formatted_track}" when a disc number is supplied, else the
formatted track, where the track is zero-padded to two digits iff numeric. -/
def discTrackPfxSpec (track : PyStr) (disc : Option PyStr) : PyStr :=
  if truthy disc then (disc.getD []) ++ '-' :: (if pyIsDigit track then pyZfill 2 track else track)
  else (if pyIsDigit track then pyZfill 2 track else track)

/-- Side condition under which the rename operation is idempotent: the track
number is purely numeric, and the disc number, when supplied and non-empty,
is purely numeric as well. -/
def discOk : Option PyStr → Bool
  | none => true
  | some s => s.isEmpty || pyIsDigit s

/-! ### Filename heuristic parser (extract_music_metadata.py lines 61-105) -/

/-- `(.+)$` in a Python regex: `.` does not match a newline, and `$` matches
at the end of the string or just before one final newline; so the group is a
non-empty newline-free remainder, optionally followed by one last newline. -/
def dotPlusEnd (u : PyStr) : Option PyStr :=
  if u.isEmpty then none
  else if u.all (fun c => c != '\n') then some u
  else if u.getLast? == some '\n' && (u.dropLast).all (fun c => c != '\n') &&
      !u.dropLast.isEmpty then some u.dropLast
  else none

/-- Backtracking for `[\s\-\._]+(.+)$`: try `j` separator characters, largest
count first, as a greedy regex engine does. -/
def sepSearch (r : PyStr) : Nat → Option PyStr
  | 0 => none
  | j + 1 =>
      match dotPlusEnd (r.drop (j + 1)) with
      | some t => some t
      | none => sepSearch r j

/-- Match `[\s\-\._]+(.+)$` against `r`, returning the title group. -/
def sepThenTitle (r : PyStr) : Option PyStr :=
  sepSearch r (r.takeWhile sepChar).length

/-- Pattern 1, `^(\d+)[\s\-\._]+(.+)$`. -/
def matchP1 (s : PyStr) : Option (PyStr × PyStr) :=
  let d := s.takeWhile Char.isDigit
  if d.isEmpty then none
  else (sepThenTitle (s.dropWhile Char.isDigit)).map (fun t => (d, t))

/-- Pattern 2, `^Track\s+(\d+)[\s\-\._]+(.+)$`. -/
def matchP2 (s : PyStr) : Option (PyStr × PyStr) :=
  match dropLit (str "Track") s with
  | none => none
  | some rest =>
      if (rest.takeWhile isPySpace).isEmpty then none
      else
        let r2 := rest.dropWhile isPySpace
        let d := r2.takeWhile Char.isDigit
        if d.isEmpty then none
        else (sepThenTitle (r2.dropWhile Char.isDigit)).map (fun t => (d, t))

/-- Pattern 3, `^CD\d+[\-\._](\d+)[\s\-\._]+(.+)$`. -/
def matchP3 (s : PyStr) : Option (PyStr × PyStr) :=
  match dropLit (str "CD") s with
  | none => none
  | some rest =>
      if (rest.takeWhile Char.isDigit).isEmpty then none
      else
        match rest.dropWhile Char.isDigit with
        | c :: r2 =>
            if sepDot c then
              let d := r2.takeWhile Char.isDigit
              if d.isEmpty then none
              else (sepThenTitle (r2.dropWhile Char.isDigit)).map (fun t => (d, t))
            else none
        | [] => none

/-- Pattern 4, `^Disc\s*\d+[\-\._](\d+)[\s\-\._]+(.+)$`. -/
def matchP4 (s : PyStr) : Option (PyStr × PyStr) :=
  match dropLit (str "Disc") s with
  | none => none
  | some rest =>
      let r1 := rest.dropWhile isPySpace
      if (r1.takeWhile Char.isDigit).isEmpty then none
      else
        match r1.dropWhile Char.isDigit with
        | c :: r2 =>
            if sepDot c then
              let d := r2.takeWhile Char.isDigit
              if d.isEmpty then none
              else (sepThenTitle (r2.dropWhile Char.isDigit)).map (fun t => (d, t))
            else none
        | [] => none

/-- Fuel-driven splitter; the fuel bounds the recursion depth, which is at
most the length of the list. -/
def wordsByF (p : Char → Bool) : Nat → PyStr → List PyStr
  | _, [] => []
  | 0, _ :: _ => []
  | n + 1, c :: cs =>
      if p c then wordsByF p n cs
      else (c :: cs.takeWhile (fun x => !p x)) :: wordsByF p n (cs.dropWhile (fun x => !p x))

/-- Words of a string, delimited by characters satisfying `p`; empty words are
not produced. `wordsBy isPySpace` is Python `str.split()`. -/
def wordsBy (p : Char → Bool) (l : PyStr) : List PyStr := wordsByF p l.length l

/-- Python `str.split()` with no arguments. -/
def splitWS : PyStr → List PyStr := wordsBy isPySpace

/-- Fuel-driven run collapser; the fuel bounds the recursion depth. -/
def collapseSepRunsF : Nat → PyStr → PyStr
  | _, [] => []
  | 0, _ :: _ => []
  | n + 1, c :: cs =>
      if sepDot c then ' ' :: collapseSepRunsF n (cs.dropWhile sepDot)
      else c :: collapseSepRunsF n cs

/-- `re.sub(r'[\-_\.]+', ' ', t)`: each maximal run of separator characters
(not whitespace) becomes a single space. -/
def collapseSepRuns (l : PyStr) : PyStr := collapseSepRunsF l.length l

/-- Python `str.capitalize` (ASCII model): first character upper-cased, the
rest lower-cased. -/
def pyCapitalize : PyStr → PyStr
  | [] => []
  | c :: cs => pyToUpper c :: cs.map pyToLower

/-- `' '.join(words)`. -/
def joinSpace : List PyStr → PyStr
  | [] => []
  | [w] => w
  | w :: ws => w ++ ' ' :: joinSpace ws

/-- Title cleanup of a matched group (extract_music_metadata.py lines 95-97):
strip, collapse separator runs to spaces, split, capitalize, join. -/
def cleanTitle (t : PyStr) : PyStr :=
  joinSpace ((splitWS (collapseSepRuns (pyStrip t))).map pyCapitalize)

/-- Python single-character `str.replace`. -/
def pyReplaceChar (s : PyStr) (a b : Char) : PyStr :=
  s.map (fun c => if c = a then b else c)

/-- The fallback title (extract_music_metadata.py lines 102-105): replace each
separator character by a space, split, capitalize, join, strip. -/
def fallbackTitle (b : PyStr) : PyStr :=
  pyStrip (joinSpace ((splitWS
    (pyReplaceChar (pyReplaceChar (pyReplaceChar b '_' ' ') '-' ' ') '.' ' ')).map pyCapitalize))

/-- The filename heuristic parser (extract_music_metadata.py lines 61-105):
strip the extension, try the four patterns in order, clean the matched title;
with no match return an empty track number and the normalized base name. -/
def extract_track_and_title_from_filename (filename : PyStr) : PyStr × PyStr :=
  let base_name := (splitExt filename).1
  match matchP1 base_name with
  | some (tr, ti) => (tr, cleanTitle ti)
  | none =>
    match matchP2 base_name with
    | some (tr, ti) => (tr, cleanTitle ti)
    | none =>
      match matchP3 base_name with
      | some (tr, ti) => (tr, cleanTitle ti)
      | none =>
        match matchP4 base_name with
        | some (tr, ti) => (tr, cleanTitle ti)
        | none => ([], fallbackTitle base_name)

/-- Delimiters of the spec's title normalization: whitespace or separator. -/
def bigSep (c : Char) : Bool := isPySpace c || sepDot c

/-- Modelled from the spec (§4.2): the title is normalized by trimming
surrounding whitespace, collapsing the separator characters to single spaces
and capitalizing each whitespace-delimited word — equivalently, the words
delimited by whitespace or separators, capitalized and joined by spaces. -/
def normalizeTitleSpec (t : PyStr) : PyStr :=
  joinSpace ((wordsBy bigSep t).map pyCapitalize)

/-- Modelled from the spec (§4.2): the parser applies the four patterns in
order, first match wins, normalizing the matched title; with no match the
track number is empty and the whole base name is normalized the same way. -/
def parserSpec (filename : PyStr) : PyStr × PyStr :=
  let base_name := (splitExt filename).1
  match matchP1 base_name with
  | some (tr, ti) => (tr, normalizeTitleSpec ti)
  | none =>
    match matchP2 base_name with
    | some (tr, ti) => (tr, normalizeTitleSpec ti)
    | none =>
      match matchP3 base_name with
      | some (tr, ti) => (tr, normalizeTitleSpec ti)
      | none =>
        match matchP4 base_name with
        | some (tr, ti) => (tr, normalizeTitleSpec ti)
        | none => ([], normalizeTitleSpec base_name)

/-! ### Audio-Relevance Filter (convert_video_to_mp3.py lines 131-181) -/

/-- The allow-list mapping of convert_video_to_mp3.py lines 144-157. -/
def audio_relevant_mapping : List (PyStr × PyStr) :=
  [(str "title", str "title"), (str "artist", str "artist"),
   (str "album", str "album"), (str "album_artist", str "album_artist"),
   (str "albumartist", str "album_artist"), (str "genre", str "genre"),
   (str "track", str "track"), (str "date", str "date"), (str "year", str "date"),
   (str "comment", str "comment"), (str "composer", str "composer"),
   (str "performer", str "artist")]

/-- The deny-list of convert_video_to_mp3.py lines 160-166. -/
def exclude_tags : List PyStr :=
  [str "major_brand", str "minor_version", str "compatible_brands",
   str "encoder", str "encoder_settings", str "creation_time",
   str "location", str "location-eng", str "com.android.version",
   str "handler_name", str "vendor_id", str "timecode", str "rotate",
   str "duration", str "bitrate", str "fps"]

/-- The Audio-Relevance Filter (convert_video_to_mp3.py lines 140-181),
modelled on the format-level tag mapping the probe step supplies: skip
deny-listed keys, map allow-listed keys, store trimmed non-empty values. -/
def extract_audio_relevant_metadata (tags : List (PyStr × PyStr)) :
    List (PyStr × PyStr) :=
  tags.foldl (fun md kv =>
    let tag_key_lower := pyLower kv.1
    if exclude_tags.contains tag_key_lower then md
    else
      match alookup audio_relevant_mapping tag_key_lower with
      | some audio_field =>
          if !kv.2.isEmpty && !(pyStrip kv.2).isEmpty then
            dictInsert md audio_field (pyStrip kv.2)
          else md
      | none => md) []

/-- Modelled from the spec (§4.3): an input entry survives exactly when its
lowercased key is not deny-listed (deny checked first and winning) and is in
the allow-list mapping, with the value trimmed and dropped if empty. -/
def filterQualify (kv : PyStr × PyStr) : Option (PyStr × PyStr) :=
  let kl := pyLower kv.1
  if exclude_tags.contains kl then none
  else
    match alookup audio_relevant_mapping kl with
    | some f => if (pyStrip kv.2).isEmpty then none else some (f, pyStrip kv.2)
    | none => none

/-- Modelled from the spec (§4.3): the output holds exactly the qualifying
entries, keyed by their mapped field names. -/
def filterSpec (tags : List (PyStr × PyStr)) : List (PyStr × PyStr) :=
  (tags.filterMap filterQualify).foldl (fun md fv => dictInsert md fv.1 fv.2) []

/-! ### File locator and synchronization driver (update_music_metadata.py) -/

/-- Keys of the locator index: bare filename, or a (filename, parent) pair. -/
inductive FKey where
  | bare (f : PyStr)
  | pair (f d : PyStr)
deriving DecidableEq

/-- The file index built by the driver (update_music_metadata.py line 43). -/
abbrev FileDict := List (FKey × PyStr)

/-- is_audio_file (update_music_metadata.py lines 234-237). -/
def is_audio_file (filename : PyStr) : Bool :=
  [str ".mp3", str ".flac", str ".m4a", str ".ogg", str ".wma"].any
    (fun ext => pyEndsWith (pyLower filename) ext)

/-- The recursive index build (lines 44-54): each audio file is stored under
its (filename, parent-directory) pair and, when the bare name is not yet
present, under the bare filename — first occurrence wins for the bare key.
`walk` lists the directories in traversal order with their files. -/
def buildFileDictRec (walk : List (PyStr × List PyStr)) : FileDict :=
  walk.foldl (fun d rootFiles =>
    rootFiles.2.foldl (fun d file =>
      if is_audio_file file then
        let parent_dir := baseName rootFiles.1
        let d1 := dictInsert d (FKey.pair file parent_dir) (joinPath rootFiles.1 file)
        if dictContains d1 (FKey.bare file) then d1
        else dictInsert d1 (FKey.bare file) (joinPath rootFiles.1 file)
      else d) d) []

/-- The non-recursive index build (lines 56-60); `files` are the regular
files of the folder. -/
def buildFileDictFlat (folder : PyStr) (files : List PyStr) : FileDict :=
  files.foldl (fun d file =>
    if is_audio_file file then dictInsert d (FKey.bare file) (joinPath folder file)
    else d) []

/-- Case-insensitive scan (lines 109-113): the first string key, in insertion
order, whose lowercase form equals the lowercased requested name. -/
def scanCI (d : FileDict) (filename : PyStr) : Option PyStr :=
  match d with
  | [] => none
  | (FKey.bare k, v) :: rest =>
      if pyLower k = pyLower filename then some v else scanCI rest filename
  | (FKey.pair _ _, _) :: rest => scanCI rest filename

/-- File resolution for one row (lines 100-113): the bare filename key is
tried first, then the (filename, parent_dir) pair when a non-empty parent
hint is supplied, and finally the case-insensitive scan. -/
def findFile (d : FileDict) (filename parentDir : PyStr) : Option PyStr :=
  if dictContains d (FKey.bare filename) then alookup d (FKey.bare filename)
  else if !parentDir.isEmpty && dictContains d (FKey.pair filename parentDir) then
    alookup d (FKey.pair filename parentDir)
  else scanCI d filename

/-- Native tag state of one file: a corruption flag (a corrupt file makes the
native library raise), the textual tags, and the MP4 integer-pair atoms. -/
structure FileData where
  corrupt : Bool
  tags : List (PyStr × PyStr)
  trkn : Option (List (List Int))
  disk : Option (List (List Int))
deriving DecidableEq

/-- The filesystem: a mapping from path to file data. -/
abbrev FS := List (PyStr × FileData)

/-- One interchange row: column name to value. -/
abbrev Row := List (PyStr × PyStr)

/-- `row.get(col, '')`. -/
def rowGet (r : Row) (k : PyStr) : PyStr := (alookup r k).getD []

/-- In-place rename of a path key. -/
def fsRename (fs : FS) (oldPath newPath : PyStr) : FS :=
  fs.map (fun pfd => if pfd.1 = oldPath then (newPath, pfd.2) else pfd)

/-- The EasyMP3 map (lines 250-260); album_artist is absent and handled via
the direct ID3 frames. -/
def mp3_map : List (PyStr × PyStr) :=
  [(str "title", str "title"), (str "artist", str "artist"),
   (str "album", str "album"), (str "genre", str "genre"),
   (str "track_number", str "tracknumber"), (str "disc_number", str "discnumber"),
   (str "composer", str "composer"), (str "year", str "date"),
   (str "comment", str "comment")]

/-- The FLAC map (lines 300-312). -/
def flac_map : List (PyStr × PyStr) :=
  [(str "title", str "TITLE"), (str "artist", str "ARTIST"),
   (str "album_artist", str "ALBUMARTIST"), (str "album", str "ALBUM"),
   (str "genre", str "GENRE"), (str "track_number", str "TRACKNUMBER"),
   (str "disc_number", str "DISCNUMBER"), (str "composer", str "COMPOSER"),
   (str "year", str "DATE"), (str "comment", str "COMMENT")]

/-- The M4A text-atom map (lines 333-343); track and disc numbers are handled
separately as integer pairs. -/
def m4a_map : List (PyStr × PyStr) :=
  [(str "title", str "©nam"), (str "artist", str "©ART"),
   (str "album_artist", str "aART"), (str "album", str "©alb"),
   (str "genre", str "©gen"), (str "composer", str "©wrt"),
   (str "year", str "©day"), (str "comment", str "©cmt")]

/-- The OGG map (lines 404-416). -/
def ogg_map : List (PyStr × PyStr) := flac_map

/-- The WMA map (lines 437-449). -/
def wma_map : List (PyStr × PyStr) :=
  [(str "title", str "Title"), (str "artist", str "Author"),
   (str "album_artist", str "WM/AlbumArtist"), (str "album", str "WM/AlbumTitle"),
   (str "genre", str "WM/Genre"), (str "track_number", str "WM/TrackNumber"),
   (str "disc_number", str "WM/PartOfSet"), (str "composer", str "WM/Composer"),
   (str "year", str "WM/Year"), (str "comment", str "Description")]

/-- The per-format tag loop ("for csv_col in available_tags: if csv_col in
map and data.get(csv_col): audio[map[csv_col]] = data[csv_col]"). -/
def applyMap (tags : List (PyStr × PyStr)) (m : List (PyStr × PyStr)) (row : Row)
    (available : List PyStr) : List (PyStr × PyStr) :=
  available.foldl (fun tg csv_col =>
    match alookup m csv_col with
    | some nk =>
        if !(rowGet row csv_col).isEmpty then dictInsert tg nk (rowGet row csv_col)
        else tg
    | none => tg) tags

/-- MP3 tag application (lines 247-287): the EasyMP3 map, then the direct ID3
frames TPE2 (album_artist) and TPOS (disc_number, only together with a
supplied album_artist). -/
def mp3ApplyData (fd : FileData) (row : Row) (available : List PyStr) : FileData :=
  let tg := applyMap fd.tags mp3_map row available
  let tg :=
    if available.contains (str "album_artist") &&
        !(rowGet row (str "album_artist")).isEmpty then
      let tg := dictInsert tg (str "TPE2") (rowGet row (str "album_artist"))
      if available.contains (str "disc_number") &&
          !(rowGet row (str "disc_number")).isEmpty then
        dictInsert tg (str "TPOS") (rowGet row (str "disc_number"))
      else tg
    else tg
  { fd with tags := tg }

/-- The MP4 integer-pair update (lines 351-388): preserve an existing total
count (the second component of the first existing pair) and default it to
zero when absent or malformed. -/
def m4aPairUpdate (cur : Option (List (List Int))) (n : Int) : Option (List (List Int)) :=
  match cur with
  | some l =>
      match l with
      | [] => some [[n, 0]]
      | t :: _ =>
          match t.get? 1 with
          | some total => some [[n, total]]
          | none => some [[n, 0]]
  | none => some [[n, 0]]

/-- M4A tag application (lines 331-391): the text atoms, then the special
trkn/disk handling — a value that does not parse as an integer is skipped
(the tag keeps its previous value) while everything else still commits. -/
def m4aApplyData (fd : FileData) (row : Row) (available : List PyStr) : FileData :=
  let tg := applyMap fd.tags m4a_map row available
  let tk :=
    if available.contains (str "track_number") &&
        !(rowGet row (str "track_number")).isEmpty then
      match pyInt? (rowGet row (str "track_number")) with
      | some n => m4aPairUpdate fd.trkn n
      | none => fd.trkn
    else fd.trkn
  let dk :=
    if available.contains (str "disc_number") &&
        !(rowGet row (str "disc_number")).isEmpty then
      match pyInt? (rowGet row (str "disc_number")) with
      | some n => m4aPairUpdate fd.disk n
      | none => fd.disk
    else fd.disk
  { fd with tags := tg, trkn := tk, disk := dk }

/-- Shared shape of the five update functions: a verbose banner; under
dry_run nothing at all happens; otherwise the file is opened (an absent or
corrupt file raises, reported as the error string) and the tag application
is persisted. -/
def updateWith (banner : PyStr) (errPfx : PyStr)
    (apply : FileData → Row → List PyStr → FileData)
    (fs : FS) (fp : PyStr) (row : Row) (available : List PyStr)
    (dry verbose : Bool) : List PyStr × Except PyStr FS :=
  let m := if verbose then [banner ++ fp] else []
  if dry then (m, Except.ok fs)
  else
    match alookup fs fp with
    | none => (m, Except.error (errPfx ++ str "cannot open file"))
    | some fd =>
        if fd.corrupt then (m, Except.error (errPfx ++ str "corrupt file"))
        else (m, Except.ok (dictInsert fs fp (apply fd row available)))

/-- update_mp3_tags (lines 239-289). -/
def update_mp3_tags : FS → PyStr → Row → List PyStr → Bool → Bool →
    List PyStr × Except PyStr FS :=
  updateWith (str "Updating MP3 tags for ") (str "Error updating MP3 tags: ") mp3ApplyData

/-- update_flac_tags (lines 291-322). -/
def update_flac_tags : FS → PyStr → Row → List PyStr → Bool → Bool →
    List PyStr × Except PyStr FS :=
  updateWith (str "Updating FLAC tags for ") (str "Error updating FLAC tags: ")
    (fun fd row available => { fd with tags := applyMap fd.tags flac_map row available })

/-- update_m4a_tags (lines 324-393). -/
def update_m4a_tags : FS → PyStr → Row → List PyStr → Bool → Bool →
    List PyStr × Except PyStr FS :=
  updateWith (str "Updating M4A tags for ") (str "Error updating M4A tags: ") m4aApplyData

/-- update_ogg_tags (lines 395-426). -/
def update_ogg_tags : FS → PyStr → Row → List PyStr → Bool → Bool →
    List PyStr × Except PyStr FS :=
  updateWith (str "Updating OGG tags for ") (str "Error updating OGG tags: ")
    (fun fd row available => { fd with tags := applyMap fd.tags ogg_map row available })

/-- update_wma_tags (lines 428-459). -/
def update_wma_tags : FS → PyStr → Row → List PyStr → Bool → Bool →
    List PyStr × Except PyStr FS :=
  updateWith (str "Updating WMA tags for ") (str "Error updating WMA tags: ")
    (fun fd row available => { fd with tags := applyMap fd.tags wma_map row available })

/-- The extension dispatch of the driver (lines 128-141); `none` is the
unsupported-extension branch. -/
def dispatchUpdate (fs : FS) (fp : PyStr) (row : Row) (available : List PyStr)
    (dry verbose : Bool) : Option (List PyStr × Except PyStr FS) :=
  if pyEndsWith (pyLower fp) (str ".mp3") then
    some (update_mp3_tags fs fp row available dry verbose)
  else if pyEndsWith (pyLower fp) (str ".flac") then
    some (update_flac_tags fs fp row available dry verbose)
  else if pyEndsWith (pyLower fp) (str ".m4a") then
    some (update_m4a_tags fs fp row available dry verbose)
  else if pyEndsWith (pyLower fp) (str ".ogg") then
    some (update_ogg_tags fs fp row available dry verbose)
  else if pyEndsWith (pyLower fp) (str ".wma") then
    some (update_wma_tags fs fp row available dry verbose)
  else none

/-- Whether the dispatch accepts the path. -/
def isSupportedPath (fp : PyStr) : Bool :=
  pyEndsWith (pyLower fp) (str ".mp3") || pyEndsWith (pyLower fp) (str ".flac") ||
    pyEndsWith (pyLower fp) (str ".m4a") || pyEndsWith (pyLower fp) (str ".ogg") ||
    pyEndsWith (pyLower fp) (str ".wma")

/-- The rename call (lines 183-232): compute the decision on the base name;
in dry-run mode (and on an already-numbered name) the original path is
returned and the filesystem untouched; the verbose message reports the
computed new name. -/
def rename_file_with_track_number (fs : FS) (filepath track : PyStr)
    (dry verbose : Bool) (disc : Option PyStr) : PyStr × FS × List PyStr :=
  let dname := dirName filepath
  let fname := baseName filepath
  match renameNewName fname track disc with
  | none => (filepath, fs, [])
  | some new_filename =>
      let new_filepath := joinPath dname new_filename
      let msgs :=
        if verbose then [str "  Renaming: " ++ fname ++ str " -> " ++ new_filename]
        else []
      if dry then (filepath, fs, msgs)
      else (new_filepath, fsRename fs filepath new_filepath, msgs)

/-- The aggregate statistics (lines 33-40). -/
structure Stats where
  total : Nat
  updated : Nat
  renamed : Nat
  failed : Nat
  skipped : Nat
  not_found : Nat
deriving DecidableEq

/-- All counters start at zero. -/
def initStats : Stats := ⟨0, 0, 0, 0, 0, 0⟩

/-- The run state threaded through the row loop: the filesystem, the
statistics, and the printed messages. -/
structure RunState where
  fs : FS
  stats : Stats
  msgs : List PyStr
deriving DecidableEq

/-- One iteration of the row loop (lines 87-168). -/
def processRow (fdict : FileDict) (available : List PyStr) (dry verbose ren : Bool)
    (st : RunState) (row : Row) : RunState :=
  let stats0 := { st.stats with total := st.stats.total + 1 }
  let filename := pyStrip (rowGet row (str "filename"))
  if filename.isEmpty then
    { st with stats := { stats0 with skipped := stats0.skipped + 1 },
              msgs := st.msgs ++ [str "Skipping row with empty filename"] }
  else
    match findFile fdict filename (rowGet row (str "parent_dir")) with
    | none =>
        { st with stats := { stats0 with not_found := stats0.not_found + 1 },
                  msgs := st.msgs ++ [str "File not found: " ++ filename] }
    | some filepath =>
        if available.all (fun col => (rowGet row col).isEmpty) then
          { st with stats := { stats0 with skipped := stats0.skipped + 1 },
                    msgs := st.msgs ++
                      [str "Skipping " ++ filename ++ str " - no tag data provided"] }
        else
          match dispatchUpdate st.fs filepath row available dry verbose with
          | none =>
              { st with stats := { stats0 with skipped := stats0.skipped + 1 },
                        msgs := st.msgs ++ [str "Unsupported file type: " ++ filepath] }
          | some (cmsgs, Except.error e) =>
              { st with stats := { stats0 with failed := stats0.failed + 1 },
                        msgs := st.msgs ++ cmsgs ++
                          [str "Error updating " ++ filename ++ str ": " ++ e] }
          | some (cmsgs, Except.ok fs1) =>
              let stats1 := { stats0 with updated := stats0.updated + 1 }
              if ren && available.contains (str "track_number") &&
                  !((rowGet row (str "track_number")).isEmpty) then
                let disc : Option PyStr :=
                  if available.contains (str "disc_number") then
                    alookup row (str "disc_number")
                  else none
                let r := rename_file_with_track_number fs1 filepath
                  (rowGet row (str "track_number")) dry verbose disc
                let stats2 :=
                  if r.1 = filepath then stats1
                  else { stats1 with renamed := stats1.renamed + 1 }
                let final := if verbose || dry then [str "Updated tags for " ++ filename] else []
                { fs := r.2.1, stats := stats2, msgs := st.msgs ++ cmsgs ++ r.2.2 ++ final }
              else
                let final := if verbose || dry then [str "Updated tags for " ++ filename] else []
                { fs := fs1, stats := stats1, msgs := st.msgs ++ cmsgs ++ final }

/-- The recognized tag columns (lines 79-80). -/
def supported_tags : List PyStr :=
  [str "album", str "album_artist", str "artist", str "genre", str "title",
   str "track_number", str "disc_number", str "composer", str "year", str "comment"]

/-- The tag columns taken from the header (line 81). -/
def availableTags (fieldnames : List PyStr) : List PyStr :=
  fieldnames.filter (fun col => supported_tags.contains col)

/-- The whole row loop. -/
def processRows (fdict : FileDict) (available : List PyStr) (dry verbose ren : Bool)
    (st : RunState) (rows : List Row) : RunState :=
  rows.foldl (processRow fdict available dry verbose ren) st

/-- The driver after the index build (lines 66-168): the header check, the
available-tags computation, then the row loop from fresh statistics. -/
def runUpdate (fdict : FileDict) (fieldnames : List PyStr) (rows : List Row) (fs : FS)
    (dry verbose ren : Bool) : Except PyStr RunState :=
  if !(fieldnames.contains (str "filename")) then
    Except.error (str "CSV is missing required columns: filename")
  else
    Except.ok (processRows fdict (availableTags fieldnames) dry verbose ren
      ⟨fs, initStats, []⟩ rows)

/-- Concrete file data for counterexamples and witnesses: a healthy file with
no tags. -/
def cleanFD : FileData := ⟨false, [], none, none⟩

/-- A one-file filesystem for the dry-run counterexample. -/
def c7fs : FS := [(str "a.mp3", cleanFD)]

/-- The matching one-entry index. -/
def c7dict : FileDict := [(FKey.bare (str "a.mp3"), str "a.mp3")]

/-- Available tag columns for the dry-run counterexample. -/
def c7avail : List PyStr := [str "title", str "artist"]

/-- Initial run state over `c7fs`. -/
def c7st : RunState := ⟨c7fs, initStats, []⟩

/-- A row that would change the title. -/
def c7row1 : Row := [(str "filename", str "a.mp3"), (str "title", str "Z")]

/-- A row that would change the artist. -/
def c7row2 : Row := [(str "filename", str "a.mp3"), (str "artist", str "Z")]

/-- A row naming an absent file with its only recognized tag column empty. -/
def c3row : Row := [(str "filename", str "y.mp3"), (str "title", str "")]

/-- Locator and row for the C3 witness: the file exists, every recognized
column is empty. -/
def c3dict : FileDict := [(FKey.bare (str "y.mp3"), str "y.mp3")]

/-- Index and row of the C2 counterexample: the index holds a file with an
unsupported extension, and the row carries real tag data for it. -/
def c2dict : FileDict := [(FKey.bare (str "x.txt"), str "x.txt")]

/-- The C2 counterexample row. -/
def c2row : Row := [(str "filename", str "x.txt"), (str "title", str "T")]

/-- The C1 counterexample index: a bare entry and a pair entry for the same
filename resolving to different paths. -/
def c1dict : FileDict :=
  [(FKey.bare (str "f.mp3"), str "/a/f.mp3"),
   (FKey.pair (str "f.mp3") (str "d2"), str "/b/d2/f.mp3")]

/-- A pair-only index for the C1 witness. -/
def c1pairdict : FileDict := [(FKey.pair (str "g.mp3") (str "d1"), str "/x/d1/g.mp3")]

/-- Filesystem for the C9 witness: one healthy M4A file whose trkn atom
carries the pair (5, 12) and whose disk atom is absent. -/
def c9fd : FileData := ⟨false, [], some [[5, 12]], none⟩

/-- The one-file filesystem of the C9 witness. -/
def c9fs : FS := [(str "x.m4a", c9fd)]

/-- The C9 witness row: numeric track "7", non-numeric disc "two". -/
def c9row : Row :=
  [(str "filename", str "x.m4a"), (str "track_number", str "7"),
   (str "disc_number", str "two")]

/-! ### Theorems -/

/-! ### Generic list lemmas -/

theorem takeWhile_append_all {α : Type} {p : α → Bool} {l₁ : List α} (l₂ : List α)
    (h : ∀ c ∈ l₁, p c = true) :
    (l₁ ++ l₂).takeWhile p = l₁ ++ l₂.takeWhile p := by
  induction l₁ with
  | nil => rfl
  | cons c cs ih =>
      have hc : p c = true := h c (List.mem_cons_self c cs)
      have ih' := ih (fun x hx => h x (List.mem_cons_of_mem c hx))
      simp [List.takeWhile_cons, hc, ih']

theorem dropWhile_append_all {α : Type} {p : α → Bool} {l₁ : List α} (l₂ : List α)
    (h : ∀ c ∈ l₁, p c = true) :
    (l₁ ++ l₂).dropWhile p = l₂.dropWhile p := by
  induction l₁ with
  | nil => rfl
  | cons c cs ih =>
      have hc : p c = true := h c (List.mem_cons_self c cs)
      have ih' := ih (fun x hx => h x (List.mem_cons_of_mem c hx))
      simp [List.dropWhile_cons, hc, ih']

/-! ### splitExt lemmas -/

theorem splitExtCore_recombine (p : PyStr) :
    ∀ b e, splitExtCore p = some (b, e) → b ++ e = p := by
  induction p with
  | nil => intro b e h; simp [splitExtCore] at h
  | cons c cs ih =>
      intro b e h
      unfold splitExtCore at h
      cases hc : splitExtCore cs with
      | some be =>
          obtain ⟨b', e'⟩ := be
          rw [hc] at h
          simp only [Option.some.injEq, Prod.mk.injEq] at h
          obtain ⟨hb, he⟩ := h
          rw [← hb, ← he, List.cons_append, ih b' e' hc]
      | none =>
          rw [hc] at h
          by_cases hdot : c = '.'
          · rw [if_pos hdot] at h
            simp only [Option.some.injEq, Prod.mk.injEq] at h
            obtain ⟨hb, he⟩ := h
            subst hb; subst he
            simp [hdot]
          · rw [if_neg hdot] at h
            exact absurd h (by simp)

theorem splitExt_recombine (p : PyStr) : (splitExt p).1 ++ (splitExt p).2 = p := by
  unfold splitExt
  cases h : splitExtCore p with
  | none => simp
  | some be =>
      obtain ⟨b, e⟩ := be
      cases hall : (List.all b fun c => decide (c = '.')) with
      | true => simp [hall]
      | false =>
          simp only [hall, Bool.false_eq_true, if_false]
          exact splitExtCore_recombine p b e h

theorem splitExtCore_append (x y : PyStr) (hx : ∀ c ∈ x, c ≠ '.') :
    splitExtCore (x ++ y) = (splitExtCore y).map (fun be => (x ++ be.1, be.2)) := by
  induction x with
  | nil => cases h : splitExtCore y <;> simp [h]
  | cons c cs ih =>
      have hcs : ∀ a ∈ cs, a ≠ '.' := fun a ha => hx a (List.mem_cons_of_mem c ha)
      have hc : c ≠ '.' := hx c (List.mem_cons_self c cs)
      have ihe := ih hcs
      simp only [List.cons_append, splitExtCore, List.append_eq]
      rw [ihe]
      cases h : splitExtCore y with
      | none => simp [hc]
      | some be => simp

theorem splitExt_append_base (x y : PyStr) (hne : x ≠ []) (hx : ∀ c ∈ x, c ≠ '.') :
    ∃ u, (splitExt (x ++ y)).1 = x ++ u := by
  unfold splitExt
  rw [splitExtCore_append x y hx]
  cases h : splitExtCore y with
  | none => exact ⟨y, rfl⟩
  | some be =>
      obtain ⟨b, e⟩ := be
      have hnotall : ((x ++ b).all (fun c => decide (c = '.'))) = false := by
        cases x with
        | nil => exact absurd rfl hne
        | cons c cs =>
            simp only [List.cons_append, List.all_cons, Bool.and_eq_false_iff]
            left
            simpa using hx c (List.mem_cons_self c cs)
      simp only [Option.map_some']
      simp only [hnotall, Bool.false_eq_true, if_false]
      exact ⟨b, rfl⟩

/-! ### Pattern lemmas for the rename engine -/

theorem digit_ne_dot {c : Char} (h : c.isDigit = true) : c ≠ '.' := by
  intro he; subst he; simp at h

theorem pyZfill_two_digits {track : PyStr} (h : pyIsDigit track = true) :
    pyZfill 2 track ≠ [] ∧ ∀ c ∈ pyZfill 2 track, c.isDigit = true := by
  unfold pyIsDigit at h
  simp only [Bool.and_eq_true, Bool.not_eq_true', List.isEmpty_eq_false_iff_exists_mem,
    List.all_eq_true] at h
  obtain ⟨hne, hall⟩ := h
  have hne' : track ≠ [] := by
    obtain ⟨x, hx⟩ := hne
    intro hnil; subst hnil; simp at hx
  unfold pyZfill
  by_cases hlen : 2 ≤ track.length
  · simp only [hlen, if_pos]
    exact ⟨hne', fun c hc => hall c hc⟩
  · simp only [hlen, if_neg, not_false_iff]
    constructor
    · simp [hne']
    · intro c hc
      rcases List.mem_append.mp hc with hrep | hmem
      · have := List.eq_of_mem_replicate hrep
        subst this; rfl
      · exact hall c hmem

theorem matchNumSep_digits_space (tt u : PyStr) (h1 : tt ≠ [])
    (h2 : ∀ c ∈ tt, c.isDigit = true) :
    matchNumSep (tt ++ ' ' :: u) = true := by
  have ht := takeWhile_append_all (p := Char.isDigit) (' ' :: u) h2
  have hd := dropWhile_append_all (p := Char.isDigit) (' ' :: u) h2
  cases tt with
  | nil => exact absurd rfl h1
  | cons a ts =>
      simp only [matchNumSep, ht, hd]
      have hsp : Char.isDigit ' ' = false := rfl
      simp [List.takeWhile_cons, List.dropWhile_cons, hsp, headIs, sepChar, isPySpace]

theorem matchDiscTrack_digits (ds tt u : PyStr) (hd1 : ds ≠ [])
    (hd2 : ∀ c ∈ ds, c.isDigit = true) (ht1 : tt ≠ [])
    (ht2 : ∀ c ∈ tt, c.isDigit = true) :
    matchDiscTrack (ds ++ '-' :: (tt ++ ' ' :: u)) = true := by
  have hds_t := takeWhile_append_all (p := Char.isDigit) ('-' :: (tt ++ ' ' :: u)) hd2
  have hds_d := dropWhile_append_all (p := Char.isDigit) ('-' :: (tt ++ ' ' :: u)) hd2
  have htt_t := takeWhile_append_all (p := Char.isDigit) (' ' :: u) ht2
  have htt_d := dropWhile_append_all (p := Char.isDigit) (' ' :: u) ht2
  have hdash : Char.isDigit '-' = false := rfl
  have hsp : Char.isDigit ' ' = false := rfl
  cases ds with
  | nil => exact absurd rfl hd1
  | cons a as =>
      cases tt with
      | nil => exact absurd rfl ht1
      | cons b bs =>
          have hb : b.isDigit = true := ht2 b (List.mem_cons_self b bs)
          have hbs : ∀ c ∈ bs, c.isDigit = true := fun c hc => ht2 c (List.mem_cons_of_mem b hc)
          have hbs_d := dropWhile_append_all (p := Char.isDigit) (' ' :: u) hbs
          simp only [matchDiscTrack, hds_t, hds_d]
          simp [List.takeWhile_cons, List.dropWhile_cons, hdash, hsp, hb, hbs_d, headIs,
            sepChar, isPySpace]

/-! ### Rename-engine lemmas (claims C4 and C5) -/

theorem renameResult_numbered (f track : PyStr) (disc : Option PyStr)
    (h : alreadyNumbered (splitExt f).1 disc = true) :
    renameResult f track disc = f := by
  simp [renameResult, renameNewName, h]

theorem renameResult_not_numbered (f track : PyStr) (disc : Option PyStr)
    (h : alreadyNumbered (splitExt f).1 disc = false) :
    renameResult f track disc =
      (if truthy disc = true then (disc.getD []) ++ '-' :: formattedTrack track
       else formattedTrack track) ++ ' ' :: f := by
  have hre := splitExt_recombine f
  simp only [renameResult, renameNewName, h, Bool.false_eq_true, if_false]
  conv_rhs => rw [← hre]
  simp [List.append_assoc]

theorem rename_idem_core (f track : PyStr) (disc : Option PyStr)
    (hdig : pyIsDigit track = true) (hdisc : discOk disc = true) :
    renameResult (renameResult f track disc) track disc = renameResult f track disc := by
  by_cases han : alreadyNumbered (splitExt f).1 disc = true
  · rw [renameResult_numbered f track disc han]
    exact renameResult_numbered f track disc han
  · have han' : alreadyNumbered (splitExt f).1 disc = false := by
      revert han; cases alreadyNumbered (splitExt f).1 disc <;> simp
    rw [renameResult_not_numbered f track disc han']
    have hft : formattedTrack track = pyZfill 2 track := by simp [formattedTrack, hdig]
    obtain ⟨hz1, hz2⟩ := pyZfill_two_digits hdig
    cases hdt : truthy disc with
    | false =>
        simp only [hdt, Bool.false_eq_true, if_false, hft]
        have hnodot : ∀ c ∈ pyZfill 2 track ++ [' '], c ≠ '.' := by
          intro c hc
          rcases List.mem_append.mp hc with h1 | h1
          · exact digit_ne_dot (hz2 c h1)
          · simp at h1; subst h1; decide
        have hxne : pyZfill 2 track ++ [' '] ≠ [] := by simp
        obtain ⟨u, hu⟩ := splitExt_append_base (pyZfill 2 track ++ [' ']) f hxne hnodot
        have heq : pyZfill 2 track ++ ' ' :: f = (pyZfill 2 track ++ [' ']) ++ f := by simp
        have hmn : matchNumSep (pyZfill 2 track ++ ' ' :: u) = true :=
          matchNumSep_digits_space (pyZfill 2 track) u hz1 hz2
        have hnum : alreadyNumbered (splitExt (pyZfill 2 track ++ ' ' :: f)).1 disc = true := by
          rw [heq, hu]
          simp only [alreadyNumbered, hdt]
          simp [hmn]
        exact renameResult_numbered _ track disc hnum
    | true =>
        obtain ⟨ds, rfl⟩ : ∃ ds, disc = some ds := by
          cases disc with
          | none => simp [truthy] at hdt
          | some s => exact ⟨s, rfl⟩
        have hds_ne : ds ≠ [] := by
          intro hnil; subst hnil; simp [truthy] at hdt
        have hds_dig : ∀ c ∈ ds, c.isDigit = true := by
          have : pyIsDigit ds = true := by
            simp only [discOk] at hdisc
            rcases Bool.or_eq_true_iff.mp hdisc with h1 | h1
            · exact absurd (by simpa using h1) hds_ne
            · exact h1
          simp only [pyIsDigit, Bool.and_eq_true, List.all_eq_true] at this
          exact fun c hc => this.2 c hc
        simp only [hdt, if_true, hft, Option.getD_some]
        have hnodot : ∀ c ∈ ds ++ '-' :: (pyZfill 2 track ++ [' ']), c ≠ '.' := by
          intro c hc
          rcases List.mem_append.mp hc with h1 | h1
          · exact digit_ne_dot (hds_dig c h1)
          · rcases List.mem_cons.mp h1 with h2 | h2
            · subst h2; decide
            · rcases List.mem_append.mp h2 with h3 | h3
              · exact digit_ne_dot (hz2 c h3)
              · simp at h3; subst h3; decide
        have hxne : ds ++ '-' :: (pyZfill 2 track ++ [' ']) ≠ [] := by simp
        obtain ⟨u, hu⟩ := splitExt_append_base (ds ++ '-' :: (pyZfill 2 track ++ [' '])) f hxne hnodot
        have heq : (ds ++ '-' :: pyZfill 2 track) ++ ' ' :: f =
            (ds ++ '-' :: (pyZfill 2 track ++ [' '])) ++ f := by simp
        have hmd : matchDiscTrack (ds ++ '-' :: (pyZfill 2 track ++ ' ' :: u)) = true :=
          matchDiscTrack_digits ds (pyZfill 2 track) u hds_ne hds_dig hz1 hz2
        have hnum : alreadyNumbered (splitExt ((ds ++ '-' :: pyZfill 2 track) ++ ' ' :: f)).1
            (some ds) = true := by
          rw [heq, hu]
          simp only [alreadyNumbered, hdt]
          simp [hmd]
        have := renameResult_numbered ((ds ++ '-' :: pyZfill 2 track) ++ ' ' :: f) track
          (some ds) hnum
        simpa using this

/-- C4 counterexample: with the non-numeric track identifier "A1" the rename
operation is not idempotent — the first call produces "A1 Song.mp3" and the
second call prepends the prefix again, so the claim's universally quantified
idempotence consequence is false. -/
theorem c4_counterexample :
    renameResult (renameResult (str "Song.mp3") (str "A1") none) (str "A1") none ≠
      renameResult (str "Song.mp3") (str "A1") none := by decide

/-- C4 (amended): the already-numbered checks behave exactly as claimed (with
a supplied disc number the base must match the disc-track pattern, without one
the plain track patterns), and applying the rename twice equals applying it
once provided the track number is purely numeric and any supplied non-empty
disc number is purely numeric — without that proviso idempotence fails. -/
theorem c4_rename_idempotence_amended (f track : PyStr) (disc : Option PyStr) :
    (truthy disc = true → matchDiscTrack (splitExt f).1 = true →
        renameResult f track disc = f) ∧
    (truthy disc = false →
        (matchNumSep (splitExt f).1 || matchTrackNum (splitExt f).1) = true →
        renameResult f track disc = f) ∧
    (pyIsDigit track = true → discOk disc = true →
        renameResult (renameResult f track disc) track disc =
          renameResult f track disc) := by
  refine ⟨?_, ?_, ?_⟩
  · intro h1 h2
    apply renameResult_numbered
    simp [alreadyNumbered, h1, h2]
  · intro h1 h2
    apply renameResult_numbered
    simp [alreadyNumbered, h1, h2]
  · intro h1 h2
    exact rename_idem_core f track disc h1 h2

/-- C4 witness: the amended theorem applied at concrete inputs — an
already disc-track-numbered name, an already track-numbered name, and a
double application with numeric track and disc numbers. -/
theorem c4_witness :
    renameResult (str "1-03 Existing Title.mp3") (str "3") (some (str "1")) =
        str "1-03 Existing Title.mp3" ∧
    renameResult (str "03 Existing Title.mp3") (str "3") none =
        str "03 Existing Title.mp3" ∧
    renameResult (renameResult (str "Existing Title.ext") (str "3") (some (str "1")))
        (str "3") (some (str "1")) =
      renameResult (str "Existing Title.ext") (str "3") (some (str "1")) :=
  ⟨(c4_rename_idempotence_amended (str "1-03 Existing Title.mp3") (str "3")
      (some (str "1"))).1 (by decide) (by decide),
   (c4_rename_idempotence_amended (str "03 Existing Title.mp3") (str "3") none).2.1
      (by decide) (by decide),
   (c4_rename_idempotence_amended (str "Existing Title.ext") (str "3")
      (some (str "1"))).2.2 (by decide) (by decide)⟩

/-- C5: for a file name that is not already numbered, the rename engine
produces exactly "{prefix} {original name}" — the extension is preserved since
base name and extension are re-concatenated, the track is zero-padded to two
digits iff purely numeric, and the prefix carries "{disc}-" exactly when a
disc number is supplied; in particular "Existing Title.ext" with track "3" and
disc "1" becomes "1-03 Existing Title.ext". -/
theorem c5_new_name_construction :
    (∀ (f track : PyStr) (disc : Option PyStr),
        alreadyNumbered (splitExt f).1 disc = false →
        renameNewName f track disc = some (discTrackPfxSpec track disc ++ ' ' :: f)) ∧
    renameResult (str "Existing Title.ext") (str "3") (some (str "1")) =
      str "1-03 Existing Title.ext" := by
  constructor
  · intro f track disc h
    have hre := splitExt_recombine f
    simp only [renameNewName, h, Bool.false_eq_true, if_false, Option.some.injEq]
    conv_rhs => rw [← hre]
    simp [discTrackPfxSpec, formattedTrack, List.append_assoc]
  · decide

/-- C5 witness: the construction theorem applied at the spec's concrete
example. -/
theorem c5_witness :
    renameNewName (str "Existing Title.ext") (str "3") (some (str "1")) =
      some (discTrackPfxSpec (str "3") (some (str "1")) ++ ' ' :: str "Existing Title.ext") :=
  c5_new_name_construction.1 (str "Existing Title.ext") (str "3") (some (str "1")) (by decide)

/-! ### Normalization lemmas for the filename parser (claim C6) -/

theorem wordsByF_fuel {p : Char → Bool} :
    ∀ (n m : Nat) (l : PyStr), l.length ≤ n → l.length ≤ m →
      wordsByF p n l = wordsByF p m l := by
  intro n
  induction n with
  | zero =>
      intro m l hn hm
      have hnil : l = [] := List.eq_nil_of_length_eq_zero (Nat.le_zero.mp hn)
      subst hnil
      cases m <;> rfl
  | succ n ih =>
      intro m l hn hm
      cases l with
      | nil => cases m <;> rfl
      | cons c cs =>
          cases m with
          | zero => simp at hm
          | succ m =>
              have hcn : cs.length ≤ n := by simp only [List.length_cons] at hn; omega
              have hcm : cs.length ≤ m := by simp only [List.length_cons] at hm; omega
              simp only [wordsByF]
              by_cases hc : p c = true
              · rw [if_pos hc, if_pos hc]
                exact ih m cs hcn hcm
              · rw [if_neg hc, if_neg hc]
                have hd := List.Sublist.length_le
                  (List.dropWhile_sublist (l := cs) (fun x => !p x))
                exact congrArg _ (ih m _ (Nat.le_trans hd hcn) (Nat.le_trans hd hcm))

theorem wordsBy_nil (p : Char → Bool) : wordsBy p [] = [] := rfl

theorem wordsBy_cons (p : Char → Bool) (c : Char) (cs : PyStr) :
    wordsBy p (c :: cs) =
      if p c then wordsBy p cs
      else (c :: cs.takeWhile (fun x => !p x)) :: wordsBy p (cs.dropWhile (fun x => !p x)) := by
  unfold wordsBy
  rw [List.length_cons]
  simp only [wordsByF]
  by_cases hc : p c = true
  · rw [if_pos hc, if_pos hc]
  · rw [if_neg hc, if_neg hc]
    have hd := List.Sublist.length_le (List.dropWhile_sublist (l := cs) (fun x => !p x))
    exact congrArg _ (wordsByF_fuel cs.length _ _ hd le_rfl)

theorem collapseSepRunsF_fuel :
    ∀ (n m : Nat) (l : PyStr), l.length ≤ n → l.length ≤ m →
      collapseSepRunsF n l = collapseSepRunsF m l := by
  intro n
  induction n with
  | zero =>
      intro m l hn hm
      have hnil : l = [] := List.eq_nil_of_length_eq_zero (Nat.le_zero.mp hn)
      subst hnil
      cases m <;> rfl
  | succ n ih =>
      intro m l hn hm
      cases l with
      | nil => cases m <;> rfl
      | cons c cs =>
          cases m with
          | zero => simp at hm
          | succ m =>
              have hcn : cs.length ≤ n := by simp only [List.length_cons] at hn; omega
              have hcm : cs.length ≤ m := by simp only [List.length_cons] at hm; omega
              simp only [collapseSepRunsF]
              by_cases hc : sepDot c = true
              · rw [if_pos hc, if_pos hc]
                have hd := List.Sublist.length_le (List.dropWhile_sublist (l := cs) sepDot)
                exact congrArg _ (ih m _ (Nat.le_trans hd hcn) (Nat.le_trans hd hcm))
              · rw [if_neg hc, if_neg hc]
                exact congrArg _ (ih m cs hcn hcm)

theorem collapseSepRuns_nil : collapseSepRuns [] = [] := rfl

theorem collapseSepRuns_cons (c : Char) (cs : PyStr) :
    collapseSepRuns (c :: cs) =
      if sepDot c then ' ' :: collapseSepRuns (cs.dropWhile sepDot)
      else c :: collapseSepRuns cs := by
  unfold collapseSepRuns
  rw [List.length_cons]
  simp only [collapseSepRunsF]
  by_cases hc : sepDot c = true
  · rw [if_pos hc, if_pos hc]
    have hd := List.Sublist.length_le (List.dropWhile_sublist (l := cs) sepDot)
    exact congrArg _ (collapseSepRunsF_fuel cs.length _ _ hd le_rfl)
  · rw [if_neg hc, if_neg hc]

theorem takeWhile_append_stop {q : Char → Bool} (xs : PyStr) {y : Char} (ys : PyStr)
    (hy : q y = false) :
    (xs ++ y :: ys).takeWhile q = xs.takeWhile q := by
  induction xs with
  | nil => simp [List.takeWhile_cons, hy]
  | cons a as ih =>
      by_cases ha : q a = true
      · simp [List.takeWhile_cons, ha, ih]
      · simp [List.takeWhile_cons, ha]

theorem dropWhile_append_stop {q : Char → Bool} (xs : PyStr) {y : Char} (ys : PyStr)
    (hy : q y = false) :
    (xs ++ y :: ys).dropWhile q = xs.dropWhile q ++ y :: ys := by
  induction xs with
  | nil => simp [List.dropWhile_cons, hy]
  | cons a as ih =>
      by_cases ha : q a = true
      · simp [List.dropWhile_cons, ha, ih]
      · simp [List.dropWhile_cons, ha]

theorem wordsBy_all_sep {p : Char → Bool} (m : PyStr) (h : ∀ c ∈ m, p c = true) :
    wordsBy p m = [] := by
  induction m with
  | nil => exact wordsBy_nil p
  | cons c cs ih =>
      rw [wordsBy_cons, if_pos (h c (List.mem_cons_self c cs))]
      exact ih (fun x hx => h x (List.mem_cons_of_mem c hx))

theorem wordsBy_append_trailing {p : Char → Bool} :
    ∀ (n : Nat) (l m : PyStr), l.length ≤ n → (∀ c ∈ m, p c = true) →
      wordsBy p (l ++ m) = wordsBy p l := by
  intro n
  induction n with
  | zero =>
      intro l m hl hm
      have hnil : l = [] := List.eq_nil_of_length_eq_zero (Nat.le_zero.mp hl)
      subst hnil
      simpa [wordsBy_nil] using wordsBy_all_sep m hm
  | succ n ih =>
      intro l m hl hm
      cases l with
      | nil => simpa [wordsBy_nil] using wordsBy_all_sep m hm
      | cons c cs =>
          have hcs : cs.length ≤ n := by
            simp only [List.length_cons] at hl; omega
          simp only [List.cons_append, wordsBy_cons]
          by_cases hc : p c = true
          · rw [if_pos hc, if_pos hc]
            exact ih cs m hcs hm
          · rw [if_neg hc, if_neg hc]
            cases m with
            | nil => simp
            | cons y ys =>
                have hy : p y = true := hm y (List.mem_cons_self y ys)
                have hy' : (fun x => !p x) y = false := by simp [hy]
                rw [takeWhile_append_stop cs ys hy', dropWhile_append_stop cs ys hy']
                have hlen : (cs.dropWhile fun x => !p x).length ≤ n :=
                  Nat.le_trans (List.Sublist.length_le (List.dropWhile_sublist _)) hcs
                rw [ih (cs.dropWhile fun x => !p x) (y :: ys) hlen hm]

theorem wordsBy_dropWhile_sub {p r : Char → Bool} (h : ∀ c, r c = true → p c = true)
    (l : PyStr) : wordsBy p (l.dropWhile r) = wordsBy p l := by
  induction l with
  | nil => simp
  | cons c cs ih =>
      rw [List.dropWhile_cons]
      by_cases hc : r c = true
      · rw [if_pos hc, ih, wordsBy_cons, if_pos (h c hc)]
      · rw [if_neg hc]

theorem wordsBy_map_congr {g : Char → Char} {p q : Char → Bool}
    (h1 : ∀ c, p (g c) = q c) (h2 : ∀ c, q c = false → g c = c) :
    ∀ (n : Nat) (l : PyStr), l.length ≤ n → wordsBy p (l.map g) = wordsBy q l := by
  intro n
  induction n with
  | zero =>
      intro l hl
      have hnil : l = [] := List.eq_nil_of_length_eq_zero (Nat.le_zero.mp hl)
      subst hnil; simp [wordsBy_nil]
  | succ n ih =>
      intro l hl
      cases l with
      | nil => simp [wordsBy_nil]
      | cons c cs =>
          have hcs : cs.length ≤ n := by
            simp only [List.length_cons] at hl; omega
          simp only [List.map_cons, wordsBy_cons, h1 c]
          by_cases hc : q c = true
          · rw [if_pos hc, if_pos hc]
            exact ih cs hcs
          · rw [if_neg hc, if_neg hc]
            have hcf : q c = false := by revert hc; cases q c <;> simp
            have hgc : g c = c := h2 c hcf
            have hcomp : ((fun x => !p x) ∘ g) = fun x => !q x :=
              funext fun x => by simp [Function.comp, h1 x]
            have htw : (cs.map g).takeWhile (fun x => !p x) =
                cs.takeWhile (fun x => !q x) := by
              rw [List.takeWhile_map, hcomp]
              have hid : ∀ x ∈ cs.takeWhile (fun x => !q x), g x = x := by
                intro x hx
                have := List.mem_takeWhile_imp hx
                exact h2 x (by revert this; cases q x <;> simp)
              calc (cs.takeWhile (fun x => !q x)).map g
                  = (cs.takeWhile (fun x => !q x)).map id := List.map_congr_left hid
                _ = cs.takeWhile (fun x => !q x) := List.map_id _
            have hdw : (cs.map g).dropWhile (fun x => !p x) =
                (cs.dropWhile (fun x => !q x)).map g := by
              rw [List.dropWhile_map, hcomp]
            rw [hgc, htw, hdw]
            have hlen : (cs.dropWhile fun x => !q x).length ≤ n :=
              Nat.le_trans (List.Sublist.length_le (List.dropWhile_sublist _)) hcs
            rw [ih (cs.dropWhile fun x => !q x) hlen]

theorem char_toNat_ofNat (n : Nat) (h : n.isValidChar) : (Char.ofNat n).toNat = n := by
  simp [Char.ofNat, h, Char.ofNatAux, Char.toNat, UInt32.toNat]

theorem not_pySpace_of_ge (x : Char) (h1 : 33 ≤ x.toNat) : isPySpace x = false := by
  simp only [isPySpace, Bool.or_eq_false_iff, decide_eq_false_iff_not]
  repeat' apply And.intro
  all_goals (intro he; subst he; exact absurd h1 (by decide))

theorem isPySpace_pyToUpper (c : Char) (h : isPySpace c = false) :
    isPySpace (pyToUpper c) = false := by
  unfold pyToUpper
  by_cases hc : ('a' ≤ c && c ≤ 'z') = true
  · rw [if_pos hc]
    simp only [Bool.and_eq_true, decide_eq_true_eq] at hc
    obtain ⟨h1, h2⟩ := hc
    have hn1 : (97 : Nat) ≤ c.toNat := by
      have : ('a' : Char).toNat ≤ c.toNat := by rw [Char.le_def] at h1; exact h1
      simpa using this
    have hn2 : c.toNat ≤ 122 := by
      have : c.toNat ≤ ('z' : Char).toNat := by rw [Char.le_def] at h2; exact h2
      simpa using this
    have hvalid : (c.toNat - 32).isValidChar := Or.inl (by omega)
    apply not_pySpace_of_ge
    rw [char_toNat_ofNat _ hvalid]
    omega
  · rw [if_neg hc]
    exact h

theorem isPySpace_pyToLower (c : Char) (h : isPySpace c = false) :
    isPySpace (pyToLower c) = false := by
  unfold pyToLower
  by_cases hc : ('A' ≤ c && c ≤ 'Z') = true
  · rw [if_pos hc]
    simp only [Bool.and_eq_true, decide_eq_true_eq] at hc
    obtain ⟨h1, h2⟩ := hc
    have hn1 : (65 : Nat) ≤ c.toNat := by
      have : ('A' : Char).toNat ≤ c.toNat := by rw [Char.le_def] at h1; exact h1
      simpa using this
    have hn2 : c.toNat ≤ 90 := by
      have : c.toNat ≤ ('Z' : Char).toNat := by rw [Char.le_def] at h2; exact h2
      simpa using this
    have hvalid : (c.toNat + 32).isValidChar := Or.inl (by omega)
    apply not_pySpace_of_ge
    rw [char_toNat_ofNat _ hvalid]
    omega
  · rw [if_neg hc]
    exact h

theorem bigSep_false_parts {c : Char} (h : bigSep c = false) :
    isPySpace c = false ∧ sepDot c = false := by
  simp only [bigSep, Bool.or_eq_false_iff] at h
  exact h

theorem collapse_pass (cs : PyStr) :
    collapseSepRuns cs =
      cs.takeWhile (fun x => !bigSep x) ++
        collapseSepRuns (cs.dropWhile (fun x => !bigSep x)) := by
  induction cs with
  | nil => simp [collapseSepRuns_nil]
  | cons d ds ih =>
      by_cases hd : bigSep d = true
      · have hnw : (fun x => !bigSep x) d = false := by simp [hd]
        rw [List.takeWhile_cons, List.dropWhile_cons]
        simp [hnw]
      · have hd' : bigSep d = false := by revert hd; cases bigSep d <;> simp
        have hparts := bigSep_false_parts hd'
        have hkeep : (fun x => !bigSep x) d = true := by simp [hd']
        rw [collapseSepRuns_cons, if_neg (by simp [hparts.2]), List.takeWhile_cons,
          List.dropWhile_cons]
        simp only [hkeep, if_true, List.cons_append]
        rw [ih]

theorem dropWhile_head_neg {pred : Char → Bool} :
    ∀ (l : PyStr) (d : Char) (ds : PyStr), l.dropWhile pred = d :: ds → pred d = false := by
  intro l
  induction l with
  | nil => intro d ds h; simp at h
  | cons a as ih =>
      intro d ds h
      rw [List.dropWhile_cons] at h
      by_cases ha : pred a = true
      · rw [if_pos ha] at h
        exact ih d ds h
      · rw [if_neg ha] at h
        have had : a = d := (List.cons.injEq a as d ds ▸ h).1
        subst had
        revert ha; cases pred a <;> simp

theorem collapse_words :
    ∀ (n : Nat) (u : PyStr), u.length ≤ n →
      wordsBy isPySpace (collapseSepRuns u) = wordsBy bigSep u := by
  intro n
  induction n with
  | zero =>
      intro u hu
      have hnil : u = [] := List.eq_nil_of_length_eq_zero (Nat.le_zero.mp hu)
      subst hnil
      simp [collapseSepRuns_nil, wordsBy_nil]
  | succ n ih =>
      intro u hu
      cases u with
      | nil => simp [collapseSepRuns_nil, wordsBy_nil]
      | cons c cs =>
          have hcs : cs.length ≤ n := by simp only [List.length_cons] at hu; omega
          by_cases hsd : sepDot c = true
          · rw [collapseSepRuns_cons, if_pos hsd]
            rw [wordsBy_cons, if_pos (by decide : isPySpace ' ' = true)]
            have hlen : (cs.dropWhile sepDot).length ≤ n :=
              le_trans (List.Sublist.length_le (List.dropWhile_sublist _)) hcs
            rw [ih _ hlen]
            rw [wordsBy_dropWhile_sub (fun x hx => by simp [bigSep, hx]) cs]
            rw [wordsBy_cons, if_pos (by simp [bigSep, hsd])]
          · have hsd' : sepDot c = false := by revert hsd; cases sepDot c <;> simp
            by_cases hws : isPySpace c = true
            · rw [collapseSepRuns_cons, if_neg (by simp [hsd'])]
              rw [wordsBy_cons, if_pos hws, ih cs hcs]
              rw [wordsBy_cons, if_pos (by simp [bigSep, hws])]
            · have hws' : isPySpace c = false := by revert hws; cases isPySpace c <;> simp
              have hbs : bigSep c = false := by simp [bigSep, hws', hsd']
              rw [collapseSepRuns_cons, if_neg (by simp [hsd'])]
              rw [wordsBy_cons, if_neg (by simp [hws']), wordsBy_cons, if_neg (by simp [hbs])]
              have hw_mem : ∀ x ∈ cs.takeWhile (fun x => !bigSep x),
                  (fun x => !isPySpace x) x = true := by
                intro x hx
                have hbx := List.mem_takeWhile_imp hx
                have hbx' : bigSep x = false := by revert hbx; cases bigSep x <;> simp
                simp [(bigSep_false_parts hbx').1]
              rw [collapse_pass cs]
              have htw_tail : (collapseSepRuns (cs.dropWhile (fun x => !bigSep x))).takeWhile
                  (fun x => !isPySpace x) = [] := by
                cases hrc : cs.dropWhile (fun x => !bigSep x) with
                | nil => simp [collapseSepRuns_nil]
                | cons d ds =>
                    have hdneg := dropWhile_head_neg cs d ds hrc
                    have hd : bigSep d = true := by revert hdneg; cases bigSep d <;> simp
                    by_cases hdd : sepDot d = true
                    · rw [collapseSepRuns_cons, if_pos hdd]
                      simp [List.takeWhile_cons, isPySpace]
                    · have hdd' : sepDot d = false := by revert hdd; cases sepDot d <;> simp
                      have hdws : isPySpace d = true := by
                        simp [bigSep, hdd'] at hd; exact hd
                      rw [collapseSepRuns_cons, if_neg (by simp [hdd'])]
                      simp [List.takeWhile_cons, hdws]
              have htw : (cs.takeWhile (fun x => !bigSep x) ++
                    collapseSepRuns (cs.dropWhile (fun x => !bigSep x))).takeWhile
                    (fun x => !isPySpace x) = cs.takeWhile (fun x => !bigSep x) := by
                rw [takeWhile_append_all _ hw_mem, htw_tail, List.append_nil]
              have hdw : (cs.takeWhile (fun x => !bigSep x) ++
                    collapseSepRuns (cs.dropWhile (fun x => !bigSep x))).dropWhile
                    (fun x => !isPySpace x) =
                  (collapseSepRuns (cs.dropWhile (fun x => !bigSep x))).dropWhile
                    (fun x => !isPySpace x) :=
                dropWhile_append_all _ hw_mem
              rw [htw, hdw]
              congr 1
              cases hrc : cs.dropWhile (fun x => !bigSep x) with
              | nil => simp [collapseSepRuns_nil, wordsBy_nil]
              | cons d ds =>
                  have hlenr : (cs.dropWhile fun x => !bigSep x).length ≤ n :=
                    le_trans (List.Sublist.length_le (List.dropWhile_sublist _)) hcs
                  have hds_len : ds.length ≤ n := by
                    rw [hrc] at hlenr; simp only [List.length_cons] at hlenr; omega
                  have hdneg := dropWhile_head_neg cs d ds hrc
                  have hd : bigSep d = true := by revert hdneg; cases bigSep d <;> simp
                  by_cases hdd : sepDot d = true
                  · rw [collapseSepRuns_cons, if_pos hdd]
                    rw [List.dropWhile_cons]
                    rw [if_neg (show ¬((fun x => !isPySpace x) ' ' = true) from by decide)]
                    rw [wordsBy_cons, if_pos (show isPySpace ' ' = true from by decide)]
                    have hlen2 : (ds.dropWhile sepDot).length ≤ n :=
                      le_trans (List.Sublist.length_le (List.dropWhile_sublist _)) hds_len
                    rw [ih _ hlen2]
                    rw [wordsBy_dropWhile_sub (fun x hx => by simp [bigSep, hx]) ds]
                    rw [wordsBy_cons (p := bigSep), if_pos hd]
                  · have hdd' : sepDot d = false := by revert hdd; cases sepDot d <;> simp
                    have hdws : isPySpace d = true := by
                      simp [bigSep, hdd'] at hd; exact hd
                    rw [collapseSepRuns_cons, if_neg (by simp [hdd'])]
                    rw [List.dropWhile_cons]
                    rw [if_neg (by simp [hdws])]
                    rw [wordsBy_cons, if_pos hdws, ih ds hds_len]
                    rw [wordsBy_cons (p := bigSep), if_pos hd]

theorem wordsBy_sound {p : Char → Bool} :
    ∀ (n : Nat) (l : PyStr), l.length ≤ n →
      ∀ w ∈ wordsBy p l, w ≠ [] ∧ ∀ c ∈ w, p c = false := by
  intro n
  induction n with
  | zero =>
      intro l hl w hw
      have hnil : l = [] := List.eq_nil_of_length_eq_zero (Nat.le_zero.mp hl)
      subst hnil
      simp [wordsBy_nil] at hw
  | succ n ih =>
      intro l hl w hw
      cases l with
      | nil => simp [wordsBy_nil] at hw
      | cons c cs =>
          have hcs : cs.length ≤ n := by simp only [List.length_cons] at hl; omega
          rw [wordsBy_cons] at hw
          by_cases hc : p c = true
          · rw [if_pos hc] at hw
            exact ih cs hcs w hw
          · rw [if_neg hc] at hw
            have hcf : p c = false := by revert hc; cases p c <;> simp
            rcases List.mem_cons.mp hw with h1 | h1
            · subst h1
              refine ⟨by simp, ?_⟩
              intro x hx
              rcases List.mem_cons.mp hx with h2 | h2
              · subst h2; exact hcf
              · have hmem := List.mem_takeWhile_imp h2
                revert hmem; cases p x <;> simp
            · have hlen : (cs.dropWhile fun x => !p x).length ≤ n :=
                Nat.le_trans (List.Sublist.length_le (List.dropWhile_sublist _)) hcs
              exact ih _ hlen w h1

theorem pyStrip_eq_self (l : PyStr)
    (hh : ∀ c, l.head? = some c → isPySpace c = false)
    (hl : ∀ c, l.getLast? = some c → isPySpace c = false) :
    pyStrip l = l := by
  unfold pyStrip
  have h1 : l.dropWhile isPySpace = l := by
    cases l with
    | nil => rfl
    | cons c cs =>
        rw [List.dropWhile_cons, if_neg (by simp [hh c (by simp)])]
  rw [h1]
  have h2 : l.reverse.dropWhile isPySpace = l.reverse := by
    cases hr : l.reverse with
    | nil => rfl
    | cons c cs =>
        have hc : l.getLast? = some c := by
          rw [List.getLast?_eq_head?_reverse, hr]; rfl
        rw [List.dropWhile_cons, if_neg (by simp [hl c hc])]
  rw [h2, List.reverse_reverse]

theorem joinSpace_ne_nil (w : PyStr) (ws : List PyStr) (hw : w ≠ []) :
    joinSpace (w :: ws) ≠ [] := by
  cases ws with
  | nil => simpa [joinSpace] using hw
  | cons w' ws' =>
      cases w with
      | nil => exact absurd rfl hw
      | cons c cs => simp [joinSpace]

theorem joinSpace_head? (w : PyStr) (ws : List PyStr) (hw : w ≠ []) :
    (joinSpace (w :: ws)).head? = w.head? := by
  cases ws with
  | nil => simp [joinSpace]
  | cons w' ws' =>
      rw [show joinSpace (w :: w' :: ws') = w ++ ' ' :: joinSpace (w' :: ws') from by
        simp [joinSpace]]
      exact List.head?_append_of_ne_nil w hw

theorem joinSpace_getLast? :
    ∀ (ws : List PyStr), (∀ w ∈ ws, w ≠ []) → ws ≠ [] →
      ∃ wl ∈ ws, (joinSpace ws).getLast? = wl.getLast? := by
  intro ws
  induction ws with
  | nil => intro _ h; exact absurd rfl h
  | cons w rest ih =>
      intro hne _
      cases rest with
      | nil => exact ⟨w, by simp, by simp [joinSpace]⟩
      | cons w' rest' =>
          obtain ⟨wl, hwl, heq⟩ :=
            ih (fun x hx => hne x (List.mem_cons_of_mem w hx)) (by simp)
          refine ⟨wl, List.mem_cons_of_mem w hwl, ?_⟩
          rw [show joinSpace (w :: w' :: rest') = w ++ ' ' :: joinSpace (w' :: rest') from by
            simp [joinSpace]]
          rw [List.getLast?_append_of_ne_nil w (by simp)]
          have hne' : joinSpace (w' :: rest') ≠ [] :=
            joinSpace_ne_nil w' rest' (hne w' (by simp))
          rw [show (' ' :: joinSpace (w' :: rest')) = [' '] ++ joinSpace (w' :: rest') from rfl]
          rw [List.getLast?_append_of_ne_nil [' '] hne']
          exact heq

theorem stripNoop_join (ws : List PyStr)
    (h : ∀ w ∈ ws, w ≠ [] ∧ ∀ c ∈ w, isPySpace c = false) :
    pyStrip (joinSpace ws) = joinSpace ws := by
  cases ws with
  | nil => rfl
  | cons w rest =>
      apply pyStrip_eq_self
      · intro c hc
        rw [joinSpace_head? w rest (h w (by simp)).1] at hc
        exact (h w (by simp)).2 c (List.mem_of_mem_head? hc)
      · intro c hc
        obtain ⟨wl, hwl, heq⟩ :=
          joinSpace_getLast? (w :: rest) (fun x hx => (h x hx).1) (by simp)
        rw [heq] at hc
        exact (h wl hwl).2 c (List.mem_of_mem_getLast? hc)

theorem cap_words_good (ws : List PyStr)
    (h : ∀ w ∈ ws, w ≠ [] ∧ ∀ c ∈ w, bigSep c = false) :
    ∀ w ∈ ws.map pyCapitalize, w ≠ [] ∧ ∀ c ∈ w, isPySpace c = false := by
  intro w hw
  obtain ⟨w0, hw0, rfl⟩ := List.mem_map.mp hw
  obtain ⟨hne, hch⟩ := h w0 hw0
  cases w0 with
  | nil => exact absurd rfl hne
  | cons c cs =>
      refine ⟨by simp [pyCapitalize], ?_⟩
      intro x hx
      simp only [pyCapitalize, List.mem_cons] at hx
      rcases hx with h1 | h1
      · subst h1
        exact isPySpace_pyToUpper c (bigSep_false_parts (hch c (by simp))).1
      · obtain ⟨y, hy, rfl⟩ := List.mem_map.mp h1
        exact isPySpace_pyToLower y (bigSep_false_parts (hch y (by simp [hy]))).1

theorem strip_words_bigSep (t : PyStr) :
    wordsBy bigSep (pyStrip t) = wordsBy bigSep t := by
  have h1 : wordsBy bigSep (t.dropWhile isPySpace) = wordsBy bigSep t :=
    wordsBy_dropWhile_sub (fun c hc => by simp [bigSep, hc]) t
  unfold pyStrip
  have hsplit : t.dropWhile isPySpace =
      ((t.dropWhile isPySpace).reverse.dropWhile isPySpace).reverse ++
        ((t.dropWhile isPySpace).reverse.takeWhile isPySpace).reverse := by
    calc t.dropWhile isPySpace = (t.dropWhile isPySpace).reverse.reverse :=
          (List.reverse_reverse _).symm
      _ = (((t.dropWhile isPySpace).reverse.takeWhile isPySpace) ++
            ((t.dropWhile isPySpace).reverse.dropWhile isPySpace)).reverse := by
          rw [List.takeWhile_append_dropWhile]
      _ = _ := by rw [List.reverse_append]
  have htrail : ∀ c ∈ ((t.dropWhile isPySpace).reverse.takeWhile isPySpace).reverse,
      bigSep c = true := by
    intro c hc
    rw [List.mem_reverse] at hc
    have := List.mem_takeWhile_imp hc
    simp [bigSep, this]
  calc wordsBy bigSep ((t.dropWhile isPySpace).reverse.dropWhile isPySpace).reverse
      = wordsBy bigSep
          (((t.dropWhile isPySpace).reverse.dropWhile isPySpace).reverse ++
            ((t.dropWhile isPySpace).reverse.takeWhile isPySpace).reverse) :=
        (wordsBy_append_trailing _ _ _ le_rfl htrail).symm
    _ = wordsBy bigSep (t.dropWhile isPySpace) := by rw [← hsplit]
    _ = wordsBy bigSep t := h1

theorem cleanTitle_eq_spec (t : PyStr) : cleanTitle t = normalizeTitleSpec t := by
  have hinner : wordsBy isPySpace (collapseSepRuns (pyStrip t)) = wordsBy bigSep t := by
    rw [collapse_words (pyStrip t).length (pyStrip t) le_rfl]
    exact strip_words_bigSep t
  unfold cleanTitle normalizeTitleSpec splitWS
  rw [hinner]

theorem fallbackTitle_eq_spec (b : PyStr) : fallbackTitle b = normalizeTitleSpec b := by
  unfold fallbackTitle
  have hcomp : pyReplaceChar (pyReplaceChar (pyReplaceChar b '_' ' ') '-' ' ') '.' ' ' =
      b.map (fun c =>
        (fun x => if x = '.' then ' ' else x)
          ((fun x => if x = '-' then ' ' else x)
            ((fun x => if x = '_' then ' ' else x) c))) := by
    simp [pyReplaceChar, List.map_map, Function.comp]
  have h1 : ∀ c, isPySpace
      ((fun x => if x = '.' then ' ' else x)
        ((fun x => if x = '-' then ' ' else x)
          ((fun x => if x = '_' then ' ' else x) c))) = bigSep c := by
    intro c
    by_cases hu : c = '_'
    · subst hu; decide
    · by_cases hm : c = '-'
      · subst hm; decide
      · by_cases hp : c = '.'
        · subst hp; decide
        · simp only [hu, hm, hp, if_false, if_neg]
          have hsd : sepDot c = false := by simp [sepDot, hu, hm, hp]
          simp [bigSep, hsd]
  have h2 : ∀ c, bigSep c = false →
      (fun x => if x = '.' then ' ' else x)
        ((fun x => if x = '-' then ' ' else x)
          ((fun x => if x = '_' then ' ' else x) c)) = c := by
    intro c hc
    have hsd : sepDot c = false := (bigSep_false_parts hc).2
    simp only [sepDot, Bool.or_eq_false_iff, decide_eq_false_iff_not] at hsd
    obtain ⟨⟨hm, hu⟩, hp⟩ := hsd
    simp [hu, hm, hp]
  rw [hcomp]
  unfold splitWS
  rw [wordsBy_map_congr h1 h2 b.length b le_rfl]
  unfold normalizeTitleSpec
  apply stripNoop_join
  apply cap_words_good
  intro w hw
  exact wordsBy_sound b.length b le_rfl w hw

/-- C6: for every bare filename the parser strips the extension, applies the
four patterns in order with first match winning, and returns the track-number
group together with the title normalized as the spec describes (trim, collapse
separators to single spaces, capitalize each word); with no match the track
number is empty and the whole base name is normalized the same way — the
implementation's two distinct normalization code paths both refine the spec's
single normalization; in particular "01 - My Song.mp3" parses to
("01", "My Song"), "Track 7_Another One.flac" to ("7", "Another One") with the
track not zero-padded, and "justtitle.mp3" to ("", "Justtitle"). -/
theorem c6_filename_heuristic :
    (∀ f : PyStr, extract_track_and_title_from_filename f = parserSpec f) ∧
    extract_track_and_title_from_filename (str "01 - My Song.mp3") =
      (str "01", str "My Song") ∧
    extract_track_and_title_from_filename (str "Track 7_Another One.flac") =
      (str "7", str "Another One") ∧
    extract_track_and_title_from_filename (str "justtitle.mp3") =
      (str "", str "Justtitle") := by
  refine ⟨?_, by decide, by decide, by decide⟩
  intro f
  unfold extract_track_and_title_from_filename parserSpec
  cases h1 : matchP1 (splitExt f).1 with
  | some p => obtain ⟨tr, ti⟩ := p; simp [h1, cleanTitle_eq_spec]
  | none =>
      cases h2 : matchP2 (splitExt f).1 with
      | some p => obtain ⟨tr, ti⟩ := p; simp [h1, h2, cleanTitle_eq_spec]
      | none =>
          cases h3 : matchP3 (splitExt f).1 with
          | some p => obtain ⟨tr, ti⟩ := p; simp [h1, h2, h3, cleanTitle_eq_spec]
          | none =>
              cases h4 : matchP4 (splitExt f).1 with
              | some p => obtain ⟨tr, ti⟩ := p; simp [h1, h2, h3, h4, cleanTitle_eq_spec]
              | none => simp [h1, h2, h3, h4, fallbackTitle_eq_spec]

theorem c8_general : ∀ (tags : List (PyStr × PyStr)) (md : List (PyStr × PyStr)),
    tags.foldl (fun md kv =>
      let tag_key_lower := pyLower kv.1
      if exclude_tags.contains tag_key_lower then md
      else
        match alookup audio_relevant_mapping tag_key_lower with
        | some audio_field =>
            if !kv.2.isEmpty && !(pyStrip kv.2).isEmpty then
              dictInsert md audio_field (pyStrip kv.2)
            else md
        | none => md) md =
      (tags.filterMap filterQualify).foldl (fun md fv => dictInsert md fv.1 fv.2) md := by
  intro tags
  induction tags with
  | nil => intro md; rfl
  | cons kv rest ih =>
      intro md
      rw [List.foldl_cons, List.filterMap_cons]
      by_cases hex : exclude_tags.contains (pyLower kv.1) = true
      · have hq : filterQualify kv = none := by
          unfold filterQualify
          simp only []
          rw [if_pos hex]
        rw [hq]
        simp only [hex, if_true]
        exact ih md
      · have hex' : exclude_tags.contains (pyLower kv.1) = false := by
          revert hex; cases exclude_tags.contains (pyLower kv.1) <;> simp
        cases hal : alookup audio_relevant_mapping (pyLower kv.1) with
        | none =>
            have hq : filterQualify kv = none := by
              unfold filterQualify
              simp only []
              rw [if_neg (by rw [hex']; decide)]
              rw [hal]
            rw [hq]
            simp only [hex', Bool.false_eq_true, if_false, hal]
            exact ih md
        | some fieldName =>
            by_cases hv : (pyStrip kv.2).isEmpty = true
            · have hq : filterQualify kv = none := by
                unfold filterQualify
                simp only []
                rw [if_neg (by rw [hex']; decide)]
                rw [hal]
                simp only [hv, if_true]
              have hcond : (!kv.2.isEmpty && !(pyStrip kv.2).isEmpty) = false := by
                simp [hv]
              rw [hq]
              simp only [hex', Bool.false_eq_true, if_false, hal, hcond]
              exact ih md
            · have hv' : (pyStrip kv.2).isEmpty = false := by
                revert hv; cases (pyStrip kv.2).isEmpty <;> simp
              have hkv : kv.2.isEmpty = false := by
                cases hk : kv.2 with
                | nil => rw [hk] at hv'; simp [pyStrip] at hv'
                | cons a as => rfl
              have hq : filterQualify kv = some (fieldName, pyStrip kv.2) := by
                unfold filterQualify
                simp only []
                rw [if_neg (by rw [hex']; decide)]
                rw [hal]
                simp only [hv', Bool.false_eq_true, if_false]
              have hcond : (!kv.2.isEmpty && !(pyStrip kv.2).isEmpty) = true := by
                simp [hv', hkv]
              rw [hq]
              simp only [hex', Bool.false_eq_true, if_false, hal, hcond, if_true]
              rw [List.foldl_cons]
              exact ih (dictInsert md fieldName (pyStrip kv.2))

/-- C8: the Audio-Relevance Filter keeps exactly the entries whose lowercased
key passes the deny-list (checked first) and appears in the allow-list mapping
(performer mapping to artist), with values trimmed and empty-after-trim values
dropped; in particular the input with title "X", encoder "libx264", a
creation_time and performer "Y" yields exactly title "X" and artist "Y". -/
theorem c8_audio_relevance_filter :
    (∀ tags : List (PyStr × PyStr),
        extract_audio_relevant_metadata tags = filterSpec tags) ∧
    extract_audio_relevant_metadata
        [(str "title", str "X"), (str "encoder", str "libx264"),
         (str "creation_time", str "2024-01-01T00:00:00"), (str "performer", str "Y")] =
      [(str "title", str "X"), (str "artist", str "Y")] := by
  refine ⟨?_, by decide⟩
  intro tags
  unfold extract_audio_relevant_metadata filterSpec
  exact c8_general tags []

/-! ### Driver lemmas and claims C10, C7, C3, C2, C1, C9 -/

theorem processRow_inv (fdict : FileDict) (available : List PyStr)
    (dry verbose ren : Bool) (st : RunState) (row : Row)
    (h1 : st.stats.total =
      st.stats.updated + st.stats.failed + st.stats.skipped + st.stats.not_found)
    (h2 : st.stats.renamed ≤ st.stats.updated) :
    (processRow fdict available dry verbose ren st row).stats.total =
        (processRow fdict available dry verbose ren st row).stats.updated +
        (processRow fdict available dry verbose ren st row).stats.failed +
        (processRow fdict available dry verbose ren st row).stats.skipped +
        (processRow fdict available dry verbose ren st row).stats.not_found ∧
      (processRow fdict available dry verbose ren st row).stats.renamed ≤
        (processRow fdict available dry verbose ren st row).stats.updated := by
  unfold processRow
  simp only []
  repeat' split
  all_goals simp
  all_goals omega

theorem processRows_inv (fdict : FileDict) (available : List PyStr)
    (dry verbose ren : Bool) :
    ∀ (rows : List Row) (st : RunState),
      st.stats.total =
          st.stats.updated + st.stats.failed + st.stats.skipped + st.stats.not_found →
      st.stats.renamed ≤ st.stats.updated →
      (processRows fdict available dry verbose ren st rows).stats.total =
          (processRows fdict available dry verbose ren st rows).stats.updated +
          (processRows fdict available dry verbose ren st rows).stats.failed +
          (processRows fdict available dry verbose ren st rows).stats.skipped +
          (processRows fdict available dry verbose ren st rows).stats.not_found ∧
        (processRows fdict available dry verbose ren st rows).stats.renamed ≤
          (processRows fdict available dry verbose ren st rows).stats.updated := by
  intro rows
  induction rows with
  | nil => intro st hA hB; exact ⟨hA, hB⟩
  | cons row rest ih =>
      intro st hA hB
      have hstep := processRow_inv fdict available dry verbose ren st row hA hB
      exact ih (processRow fdict available dry verbose ren st row) hstep.1 hstep.2

/-- C10: the statistics counters partition the processed rows — after any
prefix of the interchange rows, total equals updated + failed + skipped +
not_found (every row bumps total and exactly one outcome counter), and
renamed never exceeds updated. -/
theorem c10_stats_partition (fdict : FileDict) (available : List PyStr)
    (dry verbose ren : Bool) (fs : FS) (rows : List Row) (n : Nat) :
    (processRows fdict available dry verbose ren ⟨fs, initStats, []⟩
        (rows.take n)).stats.total =
      (processRows fdict available dry verbose ren ⟨fs, initStats, []⟩
          (rows.take n)).stats.updated +
        (processRows fdict available dry verbose ren ⟨fs, initStats, []⟩
          (rows.take n)).stats.failed +
        (processRows fdict available dry verbose ren ⟨fs, initStats, []⟩
          (rows.take n)).stats.skipped +
        (processRows fdict available dry verbose ren ⟨fs, initStats, []⟩
          (rows.take n)).stats.not_found ∧
    (processRows fdict available dry verbose ren ⟨fs, initStats, []⟩
        (rows.take n)).stats.renamed ≤
      (processRows fdict available dry verbose ren ⟨fs, initStats, []⟩
        (rows.take n)).stats.updated :=
  processRows_inv fdict available dry verbose ren (rows.take n) ⟨fs, initStats, []⟩
    (by simp [initStats]) (by simp [initStats])

theorem updateWith_dry (banner errPfx : PyStr)
    (apply : FileData → Row → List PyStr → FileData)
    (fs : FS) (fp : PyStr) (row : Row) (available : List PyStr) (verbose : Bool) :
    (updateWith banner errPfx apply fs fp row available true verbose).2 =
      Except.ok fs := rfl

theorem dispatchUpdate_dry (fs : FS) (fp : PyStr) (row : Row) (available : List PyStr)
    (verbose : Bool) (p : List PyStr × Except PyStr FS)
    (h : dispatchUpdate fs fp row available true verbose = some p) :
    p.2 = Except.ok fs := by
  unfold dispatchUpdate at h
  repeat' split at h
  all_goals cases h
  all_goals rfl

theorem rename_dry (fs : FS) (fp t : PyStr) (v : Bool) (d : Option PyStr) :
    (rename_file_with_track_number fs fp t true v d).1 = fp ∧
      (rename_file_with_track_number fs fp t true v d).2.1 = fs := by
  unfold rename_file_with_track_number
  simp only []
  split
  · exact ⟨rfl, rfl⟩
  · exact ⟨rfl, rfl⟩

theorem processRow_dry_fs (fdict : FileDict) (available : List PyStr)
    (verbose ren : Bool) (st : RunState) (row : Row) :
    (processRow fdict available true verbose ren st row).fs = st.fs := by
  unfold processRow
  simp only []
  split
  · rfl
  · split
    · rfl
    · split
      · rfl
      · split
        · rfl
        · next cmsgs e hdisp => rfl
        · next cmsgs fs1 hdisp =>
            have hfs1 : fs1 = st.fs := by
              have := dispatchUpdate_dry st.fs _ row available verbose _ hdisp
              simpa using this
            split
            · simp only []
              rw [(rename_dry fs1 _ _ verbose _).2, hfs1]
            · simpa using hfs1

theorem processRows_dry_fs (fdict : FileDict) (available : List PyStr)
    (verbose ren : Bool) :
    ∀ (rows : List Row) (st : RunState),
      (processRows fdict available true verbose ren st rows).fs = st.fs := by
  intro rows
  induction rows with
  | nil => intro st; rfl
  | cons row rest ih =>
      intro st
      have hstep := processRow_dry_fs fdict available verbose ren st row
      calc (processRows fdict available true verbose ren st (row :: rest)).fs
          = (processRows fdict available true verbose ren
              (processRow fdict available true verbose ren st row) rest).fs := rfl
        _ = (processRow fdict available true verbose ren st row).fs := ih _
        _ = st.fs := hstep

/-- C7 counterexample: in a verbose dry run, two rows that would change
different fields (title versus artist) produce exactly the same report, while
the corresponding real runs change the filesystem differently — so the
dry-run report does not report the fields that would change. -/
theorem c7_counterexample :
    (processRow c7dict c7avail true true false c7st c7row1).msgs =
      (processRow c7dict c7avail true true false c7st c7row2).msgs ∧
    (processRow c7dict c7avail false true false c7st c7row1).fs ≠
      (processRow c7dict c7avail false true false c7st c7row2).fs := by decide

/-- C7 (amended): with dry_run set, no on-disk mutation occurs — the whole
row loop leaves the filesystem (contents and names) unchanged, every rename
call returns the original path with the filesystem untouched, and in verbose
mode the rename still computes and reports the would-be new name; the report
does not, however, list the individual fields that would change. -/
theorem c7_dry_run_frame_amended (fdict : FileDict) (available : List PyStr)
    (verbose ren : Bool) (st : RunState) (rows : List Row)
    (fs : FS) (fp track : PyStr) (disc : Option PyStr) (nf : PyStr) :
    (processRows fdict available true verbose ren st rows).fs = st.fs ∧
    (rename_file_with_track_number fs fp track true verbose disc).1 = fp ∧
    (rename_file_with_track_number fs fp track true verbose disc).2.1 = fs ∧
    (renameNewName (baseName fp) track disc = some nf →
      (rename_file_with_track_number fs fp track true true disc).2.2 =
        [str "  Renaming: " ++ baseName fp ++ str " -> " ++ nf]) := by
  refine ⟨processRows_dry_fs fdict available verbose ren rows st,
    (rename_dry fs fp track verbose disc).1,
    (rename_dry fs fp track verbose disc).2, ?_⟩
  intro h
  unfold rename_file_with_track_number
  simp only []
  rw [h]
  rfl

/-- C7 witness: the amended theorem at concrete inputs — a one-row dry run
leaves the one-file filesystem unchanged, and a dry rename of
"dir/Song.mp3" with track "3" keeps the path while reporting
"Song.mp3 -> 03 Song.mp3". -/
theorem c7_witness :
    (processRows c7dict c7avail true true false c7st [c7row1]).fs = c7st.fs ∧
    (rename_file_with_track_number c7fs (str "dir/Song.mp3") (str "3") true true none).1 =
      str "dir/Song.mp3" ∧
    (rename_file_with_track_number c7fs (str "dir/Song.mp3") (str "3") true true none).2.2 =
      [str "  Renaming: " ++ baseName (str "dir/Song.mp3") ++ str " -> " ++ str "03 Song.mp3"] := by
  have h := c7_dry_run_frame_amended c7dict c7avail true false c7st [c7row1]
    c7fs (str "dir/Song.mp3") (str "3") none (str "03 Song.mp3")
  exact ⟨h.1, h.2.1, h.2.2.2 (by decide)⟩

/-- C3 counterexample: a row whose recognized tag columns are all empty but
whose file cannot be located is counted as not_found, not as skipped — the
claim's "regardless of whether the named file can be located" is false, since
the driver checks location before the empty-tag-data skip. -/
theorem c3_counterexample :
    (processRow [] [str "title"] false false false ⟨[], initStats, []⟩ c3row).stats.skipped = 0 ∧
    (processRow [] [str "title"] false false false ⟨[], initStats, []⟩ c3row).stats.not_found = 1 := by
  decide

/-- C3 (amended): a row with an empty (after strip) filename is skipped, and
a row all of whose recognized tag columns are empty is skipped provided the
file was located; when the file cannot be located the row counts as
not_found instead. -/
theorem c3_skip_rules_amended (fdict : FileDict) (available : List PyStr)
    (dry verbose ren : Bool) (st : RunState) (row : Row) (fp : PyStr) :
    (pyStrip (rowGet row (str "filename")) = [] →
      (processRow fdict available dry verbose ren st row).stats.skipped =
          st.stats.skipped + 1 ∧
        (processRow fdict available dry verbose ren st row).stats.not_found =
          st.stats.not_found ∧
        (processRow fdict available dry verbose ren st row).stats.updated =
          st.stats.updated ∧
        (processRow fdict available dry verbose ren st row).stats.failed =
          st.stats.failed) ∧
    (pyStrip (rowGet row (str "filename")) ≠ [] →
      findFile fdict (pyStrip (rowGet row (str "filename")))
          (rowGet row (str "parent_dir")) = some fp →
      (available.all fun col => (rowGet row col).isEmpty) = true →
      (processRow fdict available dry verbose ren st row).stats.skipped =
          st.stats.skipped + 1 ∧
        (processRow fdict available dry verbose ren st row).stats.not_found =
          st.stats.not_found ∧
        (processRow fdict available dry verbose ren st row).stats.updated =
          st.stats.updated ∧
        (processRow fdict available dry verbose ren st row).stats.failed =
          st.stats.failed) := by
  constructor
  · intro h
    unfold processRow
    simp [h]
  · intro h1 h2 h3
    have h1' : (pyStrip (rowGet row (str "filename"))).isEmpty = false := by
      cases hcs : pyStrip (rowGet row (str "filename")) with
      | nil => exact absurd hcs h1
      | cons a as => rfl
    unfold processRow
    simp only [h1', Bool.false_eq_true, if_false]
    rw [h2]
    simp [h3]

/-- C3 witness: the amended theorem at concrete rows — an empty-filename row
is skipped, and an all-empty row whose file is located is skipped. -/
theorem c3_witness :
    (processRow c3dict [str "title"] false false false ⟨[], initStats, []⟩
        [(str "filename", str " ")]).stats.skipped = 0 + 1 ∧
    (processRow c3dict [str "title"] false false false ⟨[], initStats, []⟩
        c3row).stats.skipped = 0 + 1 := by
  have ha := (c3_skip_rules_amended c3dict [str "title"] false false false
    ⟨[], initStats, []⟩ [(str "filename", str " ")] (str "y.mp3")).1 (by decide)
  have hb := (c3_skip_rules_amended c3dict [str "title"] false false false
    ⟨[], initStats, []⟩ c3row (str "y.mp3")).2 (by decide) (by decide) (by decide)
  exact ⟨ha.1, hb.1⟩

theorem isPrefixOf_extend : ∀ (p l extra : PyStr),
    p.isPrefixOf l = true → p.isPrefixOf (l ++ extra) = true := by
  intro p
  induction p with
  | nil => intro l extra _; simp [List.isPrefixOf]
  | cons c p' ih =>
      intro l extra h
      cases l with
      | nil => simp [List.isPrefixOf] at h
      | cons d l' =>
          simp only [List.isPrefixOf, Bool.and_eq_true] at h
          simp only [List.cons_append, List.isPrefixOf, Bool.and_eq_true]
          exact ⟨h.1, ih l' extra h.2⟩

theorem pyEndsWith_append (a b ext : PyStr) (h : pyEndsWith b ext = true) :
    pyEndsWith (a ++ b) ext = true := by
  unfold pyEndsWith List.isSuffixOf at h ⊢
  rw [List.reverse_append]
  exact isPrefixOf_extend ext.reverse b.reverse a.reverse h

theorem endsWith_join (root file ext : PyStr) (h : pyEndsWith (pyLower file) ext = true) :
    pyEndsWith (pyLower (joinPath root file)) ext = true := by
  unfold joinPath
  by_cases hr : root.isEmpty = true
  · rw [if_pos hr]; exact h
  · rw [if_neg hr]
    have hlow : pyLower (root ++ '/' :: file) = (pyLower root ++ ['/']) ++ pyLower file := by
      unfold pyLower
      rw [List.map_append, List.map_cons]
      have h47 : pyToLower '/' = '/' := by decide
      rw [h47, ← List.append_cons]
    rw [hlow]
    exact pyEndsWith_append _ _ _ h

theorem supported_join (root file : PyStr) (h : is_audio_file file = true) :
    isSupportedPath (joinPath root file) = true := by
  simp only [is_audio_file, List.any_cons, List.any_nil, Bool.or_false] at h
  simp only [isSupportedPath]
  rcases Bool.or_eq_true_iff.mp h with h1 | h'
  · simp [endsWith_join root file _ h1]
  · rcases Bool.or_eq_true_iff.mp h' with h2 | h''
    · simp [endsWith_join root file _ h2]
    · rcases Bool.or_eq_true_iff.mp h'' with h3 | h'''
      · simp [endsWith_join root file _ h3]
      · rcases Bool.or_eq_true_iff.mp h''' with h4 | h5
        · simp [endsWith_join root file _ h4]
        · simp [endsWith_join root file _ h5]

theorem mem_dictInsert {α β : Type} [DecidableEq α] :
    ∀ (d : List (α × β)) (k : α) (v : β) (kv : α × β),
      kv ∈ dictInsert d k v → kv ∈ d ∨ kv = (k, v) := by
  intro d
  induction d with
  | nil =>
      intro k v kv h
      simp [dictInsert] at h
      exact Or.inr h
  | cons hd tl ih =>
      intro k v kv h
      obtain ⟨k', v'⟩ := hd
      simp only [dictInsert] at h
      by_cases hk : k' = k
      · rw [if_pos hk] at h
        rcases List.mem_cons.mp h with h1 | h1
        · exact Or.inr h1
        · exact Or.inl (List.mem_cons_of_mem _ h1)
      · rw [if_neg hk] at h
        rcases List.mem_cons.mp h with h1 | h1
        · exact Or.inl (by rw [h1]; exact List.mem_cons_self _ _)
        · rcases ih k v kv h1 with h2 | h2
          · exact Or.inl (List.mem_cons_of_mem _ h2)
          · exact Or.inr h2

theorem buildInner_supported (root : PyStr) :
    ∀ (files : List PyStr) (d : FileDict),
      (∀ kv ∈ d, isSupportedPath kv.2 = true) →
      ∀ kv ∈ files.foldl (fun d file =>
        if is_audio_file file then
          let parent_dir := baseName root
          let d1 := dictInsert d (FKey.pair file parent_dir) (joinPath root file)
          if dictContains d1 (FKey.bare file) then d1
          else dictInsert d1 (FKey.bare file) (joinPath root file)
        else d) d,
        isSupportedPath kv.2 = true := by
  intro files
  induction files with
  | nil => intro d hd kv hkv; exact hd kv hkv
  | cons f fs ih =>
      intro d hd kv hkv
      simp only [List.foldl_cons] at hkv
      refine ih _ ?_ kv hkv
      intro kv' hkv'
      by_cases haf : is_audio_file f = true
      · simp only [haf, if_true] at hkv'
        by_cases hc : dictContains (dictInsert d (FKey.pair f (baseName root))
            (joinPath root f)) (FKey.bare f) = true
        · rw [if_pos hc] at hkv'
          rcases mem_dictInsert _ _ _ _ hkv' with hin | heq
          · exact hd kv' hin
          · rw [heq]; exact supported_join root f haf
        · rw [if_neg hc] at hkv'
          rcases mem_dictInsert _ _ _ _ hkv' with hin | heq
          · rcases mem_dictInsert _ _ _ _ hin with hin2 | heq2
            · exact hd kv' hin2
            · rw [heq2]; exact supported_join root f haf
          · rw [heq]; exact supported_join root f haf
      · have haf' : is_audio_file f = false := by
          revert haf; cases is_audio_file f <;> simp
        simp only [haf', Bool.false_eq_true, if_false] at hkv'
        exact hd kv' hkv'

theorem buildFileDictRec_supported (walk : List (PyStr × List PyStr)) :
    ∀ kv ∈ buildFileDictRec walk, isSupportedPath kv.2 = true := by
  unfold buildFileDictRec
  suffices hgen : ∀ (w : List (PyStr × List PyStr)) (d : FileDict),
      (∀ kv ∈ d, isSupportedPath kv.2 = true) →
      ∀ kv ∈ w.foldl (fun d rootFiles =>
        rootFiles.2.foldl (fun d file =>
          if is_audio_file file then
            let parent_dir := baseName rootFiles.1
            let d1 := dictInsert d (FKey.pair file parent_dir) (joinPath rootFiles.1 file)
            if dictContains d1 (FKey.bare file) then d1
            else dictInsert d1 (FKey.bare file) (joinPath rootFiles.1 file)
          else d) d) d,
        isSupportedPath kv.2 = true by
    exact fun kv hkv => hgen walk [] (by simp) kv hkv
  intro w
  induction w with
  | nil => intro d hd kv hkv; exact hd kv hkv
  | cons rf w' ih =>
      intro d hd kv hkv
      simp only [List.foldl_cons] at hkv
      exact ih _ (fun kv' hkv' => buildInner_supported rf.1 rf.2 d hd kv' hkv') kv hkv

theorem dispatchUpdate_none (fs : FS) (fp : PyStr) (row : Row) (available : List PyStr)
    (dry verbose : Bool) (h : isSupportedPath fp = false) :
    dispatchUpdate fs fp row available dry verbose = none := by
  unfold isSupportedPath at h
  simp only [Bool.or_eq_false_iff] at h
  obtain ⟨⟨⟨⟨h1, h2⟩, h3⟩, h4⟩, h5⟩ := h
  unfold dispatchUpdate
  rw [if_neg (by rw [h1]; decide), if_neg (by rw [h2]; decide),
    if_neg (by rw [h3]; decide), if_neg (by rw [h4]; decide),
    if_neg (by rw [h5]; decide)]

/-- C2 counterexample: a resolved file with an unsupported extension is
counted as skipped and not as failed, contradicting the claim that such rows
resolve to the Failed status. -/
theorem c2_counterexample :
    (processRow c2dict [str "title"] false false false ⟨[], initStats, []⟩ c2row).stats.skipped = 1 ∧
    (processRow c2dict [str "title"] false false false ⟨[], initStats, []⟩ c2row).stats.failed = 0 := by
  decide

/-- C2 (amended): a processed row whose resolved file has an extension
outside the five supported ones increments the skipped counter, not the
failed counter; moreover every path stored by the recursive index build has a
supported extension, so such rows can never arise from a driver-built index. -/
theorem c2_unsupported_amended (fdict : FileDict) (available : List PyStr)
    (dry verbose ren : Bool) (st : RunState) (row : Row) (fp : PyStr)
    (walk : List (PyStr × List PyStr))
    (h1 : pyStrip (rowGet row (str "filename")) ≠ [])
    (h2 : findFile fdict (pyStrip (rowGet row (str "filename")))
      (rowGet row (str "parent_dir")) = some fp)
    (h3 : (available.all fun col => (rowGet row col).isEmpty) = false)
    (h4 : isSupportedPath fp = false) :
    (processRow fdict available dry verbose ren st row).stats.skipped =
        st.stats.skipped + 1 ∧
      (processRow fdict available dry verbose ren st row).stats.failed =
        st.stats.failed ∧
      (processRow fdict available dry verbose ren st row).stats.updated =
        st.stats.updated ∧
      (∀ kv ∈ buildFileDictRec walk, isSupportedPath kv.2 = true) := by
  have h1' : (pyStrip (rowGet row (str "filename"))).isEmpty = false := by
    cases hcs : pyStrip (rowGet row (str "filename")) with
    | nil => exact absurd hcs h1
    | cons a as => rfl
  refine ⟨?_, ?_, ?_, buildFileDictRec_supported walk⟩
  all_goals
    unfold processRow
    simp only [h1', Bool.false_eq_true, if_false]
    rw [h2]
    simp only [h3, Bool.false_eq_true, if_false]
    rw [dispatchUpdate_none st.fs fp row available dry verbose h4]
    try simp

/-- C2 witness: the amended theorem at the concrete unsupported-extension
index and row. -/
theorem c2_witness :
    (processRow c2dict [str "title"] false false false ⟨[], initStats, []⟩ c2row).stats.skipped =
        0 + 1 ∧
      (processRow c2dict [str "title"] false false false ⟨[], initStats, []⟩
          c2row).stats.failed = 0 := by
  have h := c2_unsupported_amended c2dict [str "title"] false false false
    ⟨[], initStats, []⟩ c2row (str "x.txt") [] (by decide) (by decide) (by decide) (by decide)
  exact ⟨h.1, h.2.1⟩

/-- C1 counterexample: with both a matching (filename, parent_dir) pair entry
and a bare-filename entry in the index, the locator returns the bare entry's
path, not the pair entry's path as the claim states. -/
theorem c1_counterexample :
    findFile c1dict (str "f.mp3") (str "d2") = some (str "/a/f.mp3") ∧
    alookup c1dict (FKey.pair (str "f.mp3") (str "d2")) = some (str "/b/d2/f.mp3") ∧
    str "/a/f.mp3" ≠ str "/b/d2/f.mp3" := by decide

/-- C1 (amended): the locator resolves a requested filename by trying, in
this order, (1) the bare filename key, (2) the exact (filename, parent_dir)
pair key — only when a non-empty parent hint is supplied —, (3) the
case-insensitive linear scan; in particular, whenever a bare entry exists its
path wins over any pair entry. -/
theorem c1_lookup_precedence_amended (d : FileDict) (f p : PyStr) :
    (dictContains d (FKey.bare f) = true →
        findFile d f p = alookup d (FKey.bare f)) ∧
    (dictContains d (FKey.bare f) = false →
        (!p.isEmpty && dictContains d (FKey.pair f p)) = true →
        findFile d f p = alookup d (FKey.pair f p)) ∧
    (dictContains d (FKey.bare f) = false →
        (!p.isEmpty && dictContains d (FKey.pair f p)) = false →
        findFile d f p = scanCI d f) := by
  refine ⟨?_, ?_, ?_⟩
  · intro h
    unfold findFile
    rw [if_pos h]
  · intro h1 h2
    unfold findFile
    rw [if_neg (by rw [h1]; decide), if_pos h2]
  · intro h1 h2
    unfold findFile
    rw [if_neg (by rw [h1]; decide), if_neg (by rw [h2]; decide)]

/-- C1 witness: the amended precedence applied at concrete indexes — the bare
entry wins on `c1dict`, the pair entry resolves on a pair-only index, and an
unmatched name falls through to the scan. -/
theorem c1_witness :
    findFile c1dict (str "f.mp3") (str "d2") = alookup c1dict (FKey.bare (str "f.mp3")) ∧
    findFile c1pairdict (str "g.mp3") (str "d1") =
      alookup c1pairdict (FKey.pair (str "g.mp3") (str "d1")) ∧
    findFile c1pairdict (str "G.MP3") (str "") = scanCI c1pairdict (str "G.MP3") :=
  ⟨(c1_lookup_precedence_amended c1dict (str "f.mp3") (str "d2")).1 (by decide),
   (c1_lookup_precedence_amended c1pairdict (str "g.mp3") (str "d1")).2.1
     (by decide) (by decide),
   (c1_lookup_precedence_amended c1pairdict (str "G.MP3") (str "")).2.2
     (by decide) (by decide)⟩

/-- C9: for an M4A write with a supplied track_number (and symmetrically
disc_number): when the value parses as an integer, an existing total-count
companion (the second component of the first existing pair) is preserved and
an absent companion defaults to zero; when the value does not parse, only
that field is skipped (the atom keeps its previous value) while the text
atoms still apply — and the write commits as a whole instead of failing. -/
theorem c9_m4a_pair_handling (fs : FS) (fp : PyStr) (row : Row)
    (available : List PyStr) (verbose : Bool) (fd : FileData)
    (hfd : alookup fs fp = some fd) (hcor : fd.corrupt = false)
    (htav : available.contains (str "track_number") = true)
    (htv : (rowGet row (str "track_number")).isEmpty = false) :
    (update_m4a_tags fs fp row available false verbose).2 =
        Except.ok (dictInsert fs fp (m4aApplyData fd row available)) ∧
    (∀ (n : Int) (t : List Int) (r : List (List Int)) (c : Int),
        pyInt? (rowGet row (str "track_number")) = some n →
        fd.trkn = some (t :: r) → t.get? 1 = some c →
        (m4aApplyData fd row available).trkn = some [[n, c]]) ∧
    (∀ n : Int, pyInt? (rowGet row (str "track_number")) = some n →
        (fd.trkn = none ∨ fd.trkn = some [] ∨
          (∃ t r, fd.trkn = some (t :: r) ∧ t.get? 1 = none)) →
        (m4aApplyData fd row available).trkn = some [[n, 0]]) ∧
    (pyInt? (rowGet row (str "track_number")) = none →
        (m4aApplyData fd row available).trkn = fd.trkn ∧
        (m4aApplyData fd row available).tags = applyMap fd.tags m4a_map row available) ∧
    (available.contains (str "disc_number") = true →
      (rowGet row (str "disc_number")).isEmpty = false →
      (∀ (n : Int) (t : List Int) (r : List (List Int)) (c : Int),
          pyInt? (rowGet row (str "disc_number")) = some n →
          fd.disk = some (t :: r) → t.get? 1 = some c →
          (m4aApplyData fd row available).disk = some [[n, c]]) ∧
      (∀ n : Int, pyInt? (rowGet row (str "disc_number")) = some n →
          (fd.disk = none ∨ fd.disk = some [] ∨
            (∃ t r, fd.disk = some (t :: r) ∧ t.get? 1 = none)) →
          (m4aApplyData fd row available).disk = some [[n, 0]]) ∧
      (pyInt? (rowGet row (str "disc_number")) = none →
          (m4aApplyData fd row available).disk = fd.disk)) := by
  have hcond : (available.contains (str "track_number") &&
      !(rowGet row (str "track_number")).isEmpty) = true := by
    rw [htav, htv]; rfl
  refine ⟨?_, ?_, ?_, ?_, ?_⟩
  · unfold update_m4a_tags updateWith
    simp only [hfd, hcor, Bool.false_eq_true, if_false]
  · intro n t r c hn htk hc
    unfold m4aApplyData
    simp only [hcond, if_true, hn, htk, hc, m4aPairUpdate]
  · intro n hn hcases
    unfold m4aApplyData
    simp only [hcond, if_true, hn]
    rcases hcases with h | h | ⟨t, r, h, hg⟩
    · simp only [h, m4aPairUpdate]
    · simp only [h, m4aPairUpdate]
    · simp only [h, hg, m4aPairUpdate]
  · intro hn
    unfold m4aApplyData
    simp only [hcond, if_true, hn]
    exact ⟨trivial, trivial⟩
  · intro hdav hdv
    have hdcond : (available.contains (str "disc_number") &&
        !(rowGet row (str "disc_number")).isEmpty) = true := by
      rw [hdav, hdv]; rfl
    refine ⟨?_, ?_, ?_⟩
    · intro n t r c hn hdk hc
      unfold m4aApplyData
      simp only [hdcond, if_true, hn, hdk, hc, m4aPairUpdate]
    · intro n hn hcases
      unfold m4aApplyData
      simp only [hdcond, if_true, hn]
      rcases hcases with h | h | ⟨t, r, h, hg⟩
      · simp only [h, m4aPairUpdate]
      · simp only [h, m4aPairUpdate]
      · simp only [h, hg, m4aPairUpdate]
    · intro hn
      unfold m4aApplyData
      simp only [hdcond, if_true, hn]

/-- C9 witness: the theorem at a concrete file — the write commits, the
existing total count 12 is preserved under the new track 7, and the
non-numeric disc number leaves the disk atom untouched. -/
theorem c9_witness :
    (update_m4a_tags c9fs (str "x.m4a") c9row [str "track_number", str "disc_number"]
        false false).2 =
      Except.ok (dictInsert c9fs (str "x.m4a")
        (m4aApplyData c9fd c9row [str "track_number", str "disc_number"])) ∧
    (m4aApplyData c9fd c9row [str "track_number", str "disc_number"]).trkn =
      some [[7, 12]] ∧
    (m4aApplyData c9fd c9row [str "track_number", str "disc_number"]).disk = none := by
  have h := c9_m4a_pair_handling c9fs (str "x.m4a") c9row
    [str "track_number", str "disc_number"] false c9fd
    (by decide) (by decide) (by decide) (by decide)
  refine ⟨h.1, ?_, ?_⟩
  · exact h.2.1 7 [5, 12] [] 12 (by decide) (by decide) (by decide)
  · have hd := (h.2.2.2.2 (by decide) (by decide)).2.2 (by decide)
    rw [hd]
    decide
